import Mathlib

/-!
Verification development for the aura-stack router (TypeScript sources under
src/).  The definitions below are shallow embeddings of the source functions:
strings are Lean strings, the JavaScript RegExp produced by
createRoutePattern is modelled by the token list its restricted grammar
denotes, requests and responses are explicit records, exceptions are Except
values, and the per-request algorithm of createRouter is a pure function
that also returns the trace of executed middlewares and handlers.
-/

namespace Router

/-- Substring containment at the character-list level, the model of the
JavaScript method String.prototype.includes used by getBody for
Content-Type dispatch: true when the second list occurs contiguously
inside the first. -/
def isPreL : List Char → List Char → Bool
  | [], _ => true
  | _ :: _, [] => false
  | c :: t, d :: s => c == d && isPreL t s

/-- Containment of t in s at any position, matching String.includes. -/
def containsSubL : List Char → List Char → Bool
  | s, t =>
    isPreL t s ||
      match s with
      | [] => false
      | _ :: s1 => containsSubL s1 t

/-- String-level wrapper for containsSubL. -/
def containsSub (s t : String) : Bool := containsSubL s.data t.data

/-- Splitting a character list at every slash, the list of `/`-delimited
segments (JavaScript split("/") semantics: an empty input has one empty
segment, a leading or trailing slash contributes an empty segment). -/
def splitSlash : List Char → List (List Char)
  | [] => [[]]
  | c :: rest =>
    if c == '/' then [] :: splitSlash rest
    else
      match splitSlash rest with
      | s :: ss => (c :: s) :: ss
      | [] => [[c]]

/-- Joining segments with slashes, the inverse of splitSlash. -/
def joinSlash : List (List Char) → List Char
  | [] => []
  | [s] => s
  | s :: rest => s ++ '/' :: joinSlash rest

/-- Numeric value of a hexadecimal digit, by character code: 48 to 57 are
the digits, 97 to 102 the lowercase and 65 to 70 the uppercase letters. -/
def hexVal (c : Char) : Option Nat :=
  let n := c.toNat
  if 48 ≤ n && n ≤ 57 then some (n - 48)
  else if 97 ≤ n && n ≤ 102 then some (n - 87)
  else if 65 ≤ n && n ≤ 70 then some (n - 55)
  else none

/-- One pass of the ECMA-262 Decode routine (as decodeURIComponent runs
it, with the empty reserved set), none standing for the URIError the host
function throws.  A percent sign must be followed by two hexadecimal
digits.  A byte below 0x80 is its own character.  A leading byte 0xC2 to
0xDF, 0xE0 to 0xEF or 0xF0 to 0xF4 opens a multibyte sequence whose one,
two or three continuation bytes must each arrive percent-encoded in the
range 0x80 to 0xBF, and the assembled code point must be in shortest
form, no surrogate and at most 0x10FFFF; any other shape throws.  The
first argument counts the continuation bytes still expected, the second
accumulates the code point, the third holds the smallest code point the
open sequence may legally denote. -/
def dcRun : Nat → Nat → Nat → List Char → Option (List Char)
  | 0, _, _, [] => some []
  | 0, _, _, '%' :: h1 :: h2 :: rest =>
    match hexVal h1, hexVal h2 with
    | some a, some b =>
      let byte := a * 16 + b
      if byte < 0x80 then
        (dcRun 0 0 0 rest).map (fun l => Char.ofNat byte :: l)
      else if 0xC2 ≤ byte && byte ≤ 0xDF then
        dcRun 1 (byte - 0xC0) 0x80 rest
      else if 0xE0 ≤ byte && byte ≤ 0xEF then
        dcRun 2 (byte - 0xE0) 0x800 rest
      else if 0xF0 ≤ byte && byte ≤ 0xF4 then
        dcRun 3 (byte - 0xF0) 0x10000 rest
      else none
    | _, _ => none
  | 0, _, _, c :: rest =>
    if c == '%' then none
    else (dcRun 0 0 0 rest).map (fun l => c :: l)
  | k + 1, acc, lo, '%' :: h1 :: h2 :: rest =>
    match hexVal h1, hexVal h2 with
    | some a, some b =>
      let byte := a * 16 + b
      if 0x80 ≤ byte && byte ≤ 0xBF then
        let acc2 := acc * 64 + (byte - 0x80)
        match k with
        | 0 =>
          if lo ≤ acc2 && acc2 ≤ 0x10FFFF &&
              !(0xD800 ≤ acc2 && acc2 ≤ 0xDFFF) then
            (dcRun 0 0 0 rest).map (fun l => Char.ofNat acc2 :: l)
          else none
        | k2 + 1 => dcRun (k2 + 1) acc2 lo rest
      else none
    | _, _ => none
  | _ + 1, _, _, _ => none

/-- Model of the host decodeURIComponent applied to captured route
parameters: none models the URIError thrown on malformed percent input
(a percent sign without two hexadecimal digits, or bytes that are not a
strict UTF-8 encoding). -/
def decodeURIComponent (s : String) : Option String :=
  (dcRun 0 0 0 s.data).map String.mk

/-!
The pattern compiler.  createRoutePattern in src/src/endpoint.ts builds a
RegExp source string by two global replacements,

  route.replace(/:[^\x2f]+/g, "([^\x2f]+)").replace(/\x2f/g, "\\\x2f")

and anchors it with ^ and $.  The replacements are modelled character by
character below; the resulting regex source only ever contains literal
characters, backslash-escaped characters and the group "([^\/]+)", so it
is parsed into a token list and matched with explicit backtracking that
follows RegExp semantics (a group is greedy and captures one or more
non-slash characters; the whole pattern is anchored at both ends).
-/

/-- Token of the compiled pattern: a literal character or the capture
group inserted for a parameter. -/
inductive Tok where
  | lit (c : Char)
  | group
  deriving DecidableEq

/-- Characters inserted for a parameter before slash escaping. -/
def grpChars : List Char := ['(', '[', '^', '/', ']', '+', ')']

/-- Characters of the inserted group after slash escaping. -/
def grpEsc : List Char := ['(', '[', '^', '\\', '/', ']', '+', ')']

/-- Longest prefix free of slashes together with the remainder. -/
def takeNonSlash : List Char → List Char × List Char
  | [] => ([], [])
  | c :: rest =>
    if c == '/' then ([], c :: rest)
    else (c :: (takeNonSlash rest).1, (takeNonSlash rest).2)

/-- Scanner behind replaceParams.  In normal mode (first argument false) a
colon followed by a non-slash character starts a parameter: the group
characters are emitted and scanning switches to skip mode, which drops
the rest of the maximal non-slash run; every other character is copied
unchanged.  This is the character-level reading of the global regex
replacement of colon-led runs. -/
def rpAux : Bool → List Char → List Char
  | false, [] => []
  | false, c :: rest =>
    if c == ':' then
      (match rest with
       | [] => [c]
       | d :: _ =>
         if d == '/' then c :: rpAux false rest
         else grpChars ++ rpAux true rest)
    else c :: rpAux false rest
  | true, [] => []
  | true, c :: rest =>
    if c == '/' then c :: rpAux false rest else rpAux true rest

/-- First replacement of createRoutePattern: every leftmost occurrence of
a colon followed by one or more non-slash characters becomes the group
"([^\x2f]+)". -/
def replaceParams (l : List Char) : List Char := rpAux false l

/-- Second replacement of createRoutePattern: every slash becomes an
escaped slash. -/
def escapeSlashes : List Char → List Char
  | [] => []
  | c :: rest =>
    if c == '/' then '\\' :: '/' :: escapeSlashes rest
    else c :: escapeSlashes rest

/-- Scanner state for parsing the regex source: normal scanning, the
character after a backslash, or the remaining characters of a group
signature already recognized. -/
inductive PMode where
  | norm
  | esc
  | skip (k : Nat)

/-- Parsing the produced regex source into tokens, as a one-pass scanner.
The grammar emitted by the pipeline has only the escaped group, backslash
escapes and literal characters: a backslash emits the following character
as a literal, an opening parenthesis followed by the group signature
emits the capture group and skips the signature, and every other
character is a literal.  Anchoring is implicit in the matcher, which
consumes the whole subject. -/
def parseAux : PMode → List Char → List Tok
  | _, [] => []
  | .norm, c :: rest =>
    if c == '\\' then parseAux .esc rest
    else if c == '(' && isPreL ['[', '^', '\\', '/', ']', '+', ')'] rest then
      .group :: parseAux (.skip 7) rest
    else .lit c :: parseAux .norm rest
  | .esc, c :: rest => .lit c :: parseAux .norm rest
  | .skip k, _ :: rest =>
    if k ≤ 1 then parseAux .norm rest else parseAux (.skip (k - 1)) rest

/-- Token list of a regex source string. -/
def parseToks (l : List Char) : List Tok := parseAux .norm l

/-- Compiled route pattern, the model of createRoutePattern. -/
def createRoutePattern (route : String) : List Tok :=
  parseToks (escapeSlashes (replaceParams route.data))

/-- Continuation of a group match: given the matcher k for the tokens
after the group and the characters following the part already captured,
extend the capture as far as possible (greedily, longest first, as RegExp
backtracking does) so that k accepts the remainder; returns the extension
and the captures of k. -/
def grpCont (k : List Char → Option (List (List Char))) :
    List Char → Option (List Char × List (List Char))
  | [] => (k []).map (fun caps => ([], caps))
  | y :: ys =>
    if y == '/' then (k (y :: ys)).map (fun caps => ([], caps))
    else
      match grpCont k ys with
      | some (more, caps) => some (y :: more, caps)
      | none => (k (y :: ys)).map (fun caps => ([], caps))

/-- Anchored matching of a token list against a subject, producing the
list of group captures on success.  A group captures one or more
non-slash characters and greedily tries the longest viable capture
first, as RegExp does; the whole subject must be consumed, modelling
the ^ and $ anchors. -/
def regexExec : List Tok → List Char → Option (List (List Char))
  | [], s => if s.isEmpty then some [] else none
  | .lit _ :: _, [] => none
  | .lit c :: ts, x :: xs => if c == x then regexExec ts xs else none
  | .group :: _, [] => none
  | .group :: ts, x :: xs =>
    if x == '/' then none
    else (grpCont (regexExec ts) xs).map (fun pr => (x :: pr.1) :: pr.2)

/-- Boolean match, the model of RegExp.prototype.test. -/
def regexTest (ts : List Tok) (s : List Char) : Bool := (regexExec ts s).isSome

/-- Matching a route pattern against a path, as the router does with
createRoutePattern(route).test(path). -/
def routeRegexMatches (route path : String) : Bool :=
  regexTest (createRoutePattern route) path.data

/-!
Validation helpers from src/src/assert.ts.
-/

/-- HTTP methods accepted by isSupportedMethod in src/src/assert.ts. -/
def supportedMethods : List String :=
  ["GET", "POST", "DELETE", "PUT", "PATCH", "OPTIONS", "HEAD", "TRACE",
    "CONNECT"]

/-- Model of isSupportedMethod. -/
def isSupportedMethod (m : String) : Bool := supportedMethods.contains m

/-- HTTP methods that may carry a body, from src/src/assert.ts. -/
def supportedBodyMethods : List String := ["POST", "PUT", "PATCH"]

/-- Model of isSupportedBodyMethod. -/
def isSupportedBodyMethod (m : String) : Bool :=
  supportedBodyMethods.contains m

/-- Characters allowed in a route by the validation regex of isValidRoute. -/
def isValidRouteChar (c : Char) : Bool :=
  c.isAlpha || c.isDigit || c == '/' || c == '_' || c == ':' || c == '-'

/-- Model of isValidRoute: the route must start with a slash and all
following characters must come from the allowed class. -/
def isValidRoute (route : String) : Bool :=
  match route.data with
  | [] => false
  | c :: rest => c == '/' && rest.all isValidRouteChar

/-!
Data model of the per-request machinery: JSON-like values for bodies and
validator outputs, decoded bodies, search parameters, errors, requests
and responses.  Schema validators are modelled as the opaque capability
the spec describes: a function from the decoded input to either the
parsed value or a failure detail, exactly the safeParse contract the
source relies on.
-/

/-- JSON-like values: request bodies, validator outputs, response bodies. -/
inductive JVal where
  | str (s : String)
  | num (n : Int)
  | jbool (b : Bool)
  | jnull
  | obj (fields : List (String × JVal))
  | arr (elems : List JVal)

/-- Insertion into a JavaScript-object-like association list: an existing
key keeps its position and gets the new value, a new key is appended. -/
def assocSet {α : Type} (l : List (String × α)) (k : String) (v : α) :
    List (String × α) :=
  if l.any (fun p => p.1 == k) then
    l.map (fun p => if p.1 == k then (k, v) else p)
  else l ++ [(k, v)]

/-- Model of the safeParse contract of a schema validator. -/
abbrev Schema : Type := JVal → Except String JVal

/-- Decoded request body as produced by getBody. -/
inductive DecodedBody where
  | undef
  | jsonVal (v : JVal)
  | formVal (entries : List (String × String))
  | textVal (s : String)
  | bufferVal
  | blobVal
  | nullVal

/-- Search parameters in the request context: the raw query collection
when no schema is configured, otherwise the validator output. -/
inductive SearchParamsVal where
  | raw (entries : List (String × String))
  | parsed (v : JVal)

/-- Errors raised during request processing: an AuraStackRouterError with
its status data, or any other thrown error. -/
inductive Err where
  | routerError (status : Nat) (statusText : String) (message : String)
  | plain (message : String)
  deriving DecidableEq

/-- Model of a fetch Request as far as the router inspects it: the method
string, the URL path and query, the declared content type, and the
results the body readers json(), text() and formData() would produce. -/
structure Request where
  method : String
  path : String
  query : List (String × String)
  contentTypeHdr : Option String
  jsonBody : JVal
  textBody : String
  formBody : List (String × String)
  headers : List (String × String)

/-- Model of a fetch Response as far as the claims inspect it. -/
structure Response where
  status : Nat
  statusText : String
  body : JVal

/-- Model of Response.json({message}, {status, statusText}). -/
def responseJson (message : String) (status : Nat) (statusText : String) :
    Response :=
  ⟨status, statusText, .obj [("message", .str message)]⟩

/-!
Context building, from src/src/context.ts.
-/

/-- Removal of the first colon of a string, the model of the call
seg.replace(":", "") used on captured parameter names. -/
def removeFirstColon (s : String) : String := String.mk (rfcAux s.data)
where
  rfcAux : List Char → List Char
    | [] => []
    | c :: rest => if c == ':' then rest else c :: rfcAux rest

/-- Model of getRouteParams from src/src/context.ts: test the compiled
pattern against the path, returning the empty map on failure; otherwise
read the parameter names by running the same regex on the route itself
(each capture holds the original colon-led text, whose first colon is
stripped), read the values by running the regex on the path, and build
the object positionally, percent-decoding every value — a URIError from
decodeURIComponent propagates out of the reduce as a plain error. -/
def getRouteParams (route path : String) :
    Except Err (List (String × String)) :=
  let toks := createRoutePattern route
  match regexExec toks path.data with
  | none => .ok []
  | some values =>
    match regexExec toks route.data with
    | none => .ok []
    | some nameCaps =>
      let params := nameCaps.map (fun cs => removeFirstColon (String.mk cs))
      reduceParams values 0 [] params
where
  /-- Model of params.reduce((previous, now, idx) => ...): each name is
  inserted with the percent-decoded value at its own index, a missing
  value defaulting to the empty string; a malformed value throws the
  URIError of decodeURIComponent. -/
  reduceParams (values : List (List Char)) :
      Nat → List (String × String) → List String →
        Except Err (List (String × String))
    | _, acc, [] => .ok acc
    | idx, acc, now :: rest =>
      match decodeURIComponent (String.mk ((values.get? idx).getD [])) with
      | none => .error (.plain "URI malformed")
      | some d => reduceParams values (idx + 1) (assocSet acc now d) rest

/-- Model of Object.fromEntries over the parsed query string: later
duplicates overwrite earlier values. -/
def queryToObj (q : List (String × String)) : JVal :=
  .obj (q.foldl (fun acc p => assocSet acc p.1 (JVal.str p.2)) [])

/-- Per-endpoint configuration as the dispatch model consumes it:
optional body and search-params validators.  Endpoint middlewares are
added in the dispatch section. -/
structure SchemasCfg where
  bodySchema : Option Schema
  spSchema : Option Schema

/-- Model of getSearchParams from src/src/context.ts: with a schema the
flat query object is validated, a failure raising a plain Error whose
message carries the detail; without a schema the raw query collection is
returned. -/
def getSearchParams (req : Request) (cfg : SchemasCfg) :
    Except Err SearchParamsVal :=
  match cfg.spSchema with
  | some schema =>
    match schema (queryToObj req.query) with
    | .error detail => .error (.plain ("Invalid search parameters: " ++ detail))
    | .ok v => .ok (.parsed v)
  | none => .ok (.raw req.query)

/-- Model of getBody from src/src/context.ts: no body for methods outside
POST, PUT and PATCH, otherwise a chain of substring tests on the declared
content type, with JSON bodies validated against the configured schema (a
failure raising a plain Error with the fixed message).  The json(),
formData() and text() readers are modelled by the corresponding request
fields. -/
def getBody (req : Request) (cfg : SchemasCfg) : Except Err DecodedBody :=
  if !isSupportedBodyMethod req.method then .ok .undef
  else
    let ct := req.contentTypeHdr.getD ""
    if containsSub ct "application/json" then
      match cfg.bodySchema with
      | some schema =>
        match schema req.jsonBody with
        | .error _ => .error (.plain "Invalid request body")
        | .ok v => .ok (.jsonVal v)
      | none => .ok (.jsonVal req.jsonBody)
    else if containsSub ct "application/x-www-form-urlencoded" ||
        containsSub ct "multipart/form-data" then .ok (.formVal req.formBody)
    else if containsSub ct "text/" then .ok (.textVal req.textBody)
    else if containsSub ct "application/octet-stream" then .ok .bufferVal
    else if containsSub ct "image/" || containsSub ct "video/" ||
        containsSub ct "audio/" then .ok .blobVal
    else .ok .nullVal

/-- Model of getHeaders: a fresh copy of the request headers. -/
def getHeaders (req : Request) : List (String × String) := req.headers

/-!
Dispatch model, from src/unnamed/part_007 (createRouter with the
try/catch boundary) together with the middleware executors of
src/src/endpoint.ts.  Middlewares and handlers are Lean functions
carrying a numeric identifier; the dispatcher returns, besides the
response, the trace of identifiers it actually invoked, which is the
observable record of side effects the temporal claims speak about.
-/

/-- Trace event: a middleware or handler invocation. -/
inductive Event where
  | gmwRan (id : Nat)
  | emwRan (id : Nat)
  | handlerRan (id : Nat)
  deriving DecidableEq

/-- Result of one global middleware: the request to continue with, or a
response that short-circuits the rest of the processing. -/
inductive GMwResult where
  | nextReq (r : Request)
  | shortCircuit (r : Response)

/-- Global middleware: identifier plus behavior. -/
structure GMw where
  id : Nat
  run : Request → Except Err GMwResult

/-- Entry of the configured global middleware list, which in the source
is unchecked until dispatch: either a function or a non-callable value. -/
inductive GMwEntry where
  | fn (g : GMw)
  | notFn

/-- Request context handed to endpoint middlewares and the handler,
mirroring the object literal built by createRouter. -/
structure RequestContext where
  params : List (String × String)
  searchParams : SearchParamsVal
  headers : List (String × String)
  body : DecodedBody

/-- Endpoint middleware: identifier plus behavior. -/
structure EMw where
  id : Nat
  run : Request → RequestContext → Except Err RequestContext

/-- Entry of an endpoint middleware list. -/
inductive EMwEntry where
  | fn (m : EMw)
  | notFn

/-- Endpoint handler: identifier plus behavior. -/
structure Handler where
  id : Nat
  run : Request → RequestContext → Except Err Response

/-- Endpoint configuration: optional schemas and middlewares. -/
structure EndpointConfig where
  schemas : SchemasCfg
  middlewares : List EMwEntry

/-- Registered endpoint. -/
structure RouteEndpoint where
  method : String
  route : String
  handler : Handler
  config : EndpointConfig

/-- Router configuration.  basePath and middlewares come from the source
RouterConfig.  Modelled from the spec: the onError error hook, whose
implementation is not among the provided sources (only the RouterConfig
usage in src/src/example.ts refers to it); per the spec it receives
(error, request) and produces the response, and may itself fail. -/
structure RouterConfig where
  basePath : Option String
  middlewares : Option (List GMwEntry)
  onError : Option (Err → Request → Except Err Response)

/-- Router configuration with no options, the default of createRouter. -/
def emptyRouterConfig : RouterConfig := ⟨none, none, none⟩

/-- Model of executeGlobalMiddlewares from src/src/endpoint.ts: each
entry must be callable (a TypeError is thrown otherwise), is awaited in
order, and a Response return value stops the chain; otherwise the
(possibly replaced) request flows to the next middleware. -/
def runGmwList : Request → List GMwEntry → List Event × Except Err GMwResult
  | req, [] => ([], .ok (.nextReq req))
  | _, .notFn :: _ => ([], .error (.plain "Middleware must be a function"))
  | req, .fn g :: rest =>
    match g.run req with
    | .error e => ([.gmwRan g.id], .error e)
    | .ok (.shortCircuit r) => ([.gmwRan g.id], .ok (.shortCircuit r))
    | .ok (.nextReq r) =>
      let p := runGmwList r rest
      (.gmwRan g.id :: p.1, p.2)

/-- Wrapper handling the missing middleware list, as the source returns
the request unchanged when config.middlewares is undefined. -/
def executeGlobalMiddlewares (req : Request) :
    Option (List GMwEntry) → List Event × Except Err GMwResult
  | none => ([], .ok (.nextReq req))
  | some mws => runGmwList req mws

/-- Model of executeMiddlewares from src/src/endpoint.ts: each entry must
be callable (TypeError otherwise) and the returned context is threaded to
the next middleware. -/
def runEmwList : Request → RequestContext → List EMwEntry →
    List Event × Except Err RequestContext
  | _, ctx, [] => ([], .ok ctx)
  | _, _, .notFn :: _ => ([], .error (.plain "Middleware must be a function"))
  | req, ctx, .fn m :: rest =>
    match m.run req ctx with
    | .error e => ([.emwRan m.id], .error e)
    | .ok ctx2 =>
      let p := runEmwList req ctx2 rest
      (.emwRan m.id :: p.1, p.2)

/-- One step of the per-method grouping loop of createRouter: push the
endpoint onto its method group, creating the group on first use (Map
semantics preserving key insertion order). -/
def addToGroups :
    List (String × List RouteEndpoint) → RouteEndpoint →
      List (String × List RouteEndpoint)
  | [], e => [(e.method, [e])]
  | (m, g) :: rest, e =>
    if m == e.method then (m, g ++ [e]) :: rest
    else (m, g) :: addToGroups rest e

/-- Grouping of the endpoint array by method, in registration order. -/
def buildGroups (endpoints : List RouteEndpoint) :
    List (String × List RouteEndpoint) :=
  endpoints.foldl addToGroups []

/-- Lookup of a method group. -/
def lookupGroup : List (String × List RouteEndpoint) → String →
    List RouteEndpoint
  | [], _ => []
  | (m, g) :: rest, k => if m == k then g else lookupGroup rest k

/-- Presence of a method among the group keys, i.e. among the HTTP
handlers the router exposes. -/
def keysContain (gs : List (String × List RouteEndpoint)) (m : String) :
    Bool :=
  gs.any (fun p => p.1 == m)

/-- Base-path prefixing exactly as createRouter performs it before
compiling each pattern. -/
def withBasePath (cfg : RouterConfig) (route : String) : String :=
  match cfg.basePath with
  | some bp => bp ++ route
  | none => route

/-- Route search of createRouter: scan the method group in registration
order for the first endpoint whose base-path-prefixed compiled pattern
matches the pathname. -/
def findEndpoint (endpoints : List RouteEndpoint) (cfg : RouterConfig)
    (m : String) (path : String) : Option RouteEndpoint :=
  (lookupGroup (buildGroups endpoints) m).find?
    (fun e => routeRegexMatches (withBasePath cfg e.route) path)

/-- Modelled from the spec: the method rejection step of the dispatcher,
whose implementation is not among the provided sources (the router test
suite in src/src/router.ts exercises it).  A request whose method is not
a recognized HTTP method raises METHOD_NOT_ALLOWED naming the method as
not supported; a recognized method for which the router has no endpoint
group raises METHOD_NOT_ALLOWED naming it as not allowed.  This runs
before global middlewares and route matching. -/
def methodGuard (endpoints : List RouteEndpoint) (req : Request) :
    Option Err :=
  if !isSupportedMethod req.method then
    some (.routerError 405 "METHOD_NOT_ALLOWED"
      ("The HTTP method \x27" ++ req.method ++ "\x27 is not supported"))
  else if !keysContain (buildGroups endpoints) req.method then
    some (.routerError 405 "METHOD_NOT_ALLOWED"
      ("The HTTP method \x27" ++ req.method ++ "\x27 is not allowed"))
  else none

/-- Catch clause of createRouter in src/unnamed/part_007: an
AuraStackRouterError is rendered with its own status, status text and
message; any other error becomes the fixed 500 response. -/
def renderCaughtError : Err → Response
  | .routerError status statusText message =>
    responseJson message status statusText
  | .plain _ => responseJson "Internal Server Error" 500 ""

/-- Fixed fallback 500 response. -/
def fallbackResponse : Response := responseJson "Internal Server Error" 500 ""

/-- Modelled from the spec: the error translation step.  With a
configured onError hook (not among the provided sources) the hook is
invoked first with the error and the request and its response returned; a
failing hook yields the fixed fallback 500 response with no retry.
Without a hook the catch clause of src/unnamed/part_007 applies. -/
def translateError (cfg : RouterConfig) (e : Err) (req : Request) :
    Response :=
  match cfg.onError with
  | some hook =>
    match hook e req with
    | .ok r => r
    | .error _ => fallbackResponse
  | none => renderCaughtError e

/-- Body of the try block of the per-method handler of createRouter
(src/unnamed/part_007), preceded by the method rejection step: global
middlewares (with short-circuit), route search, context building (body,
params, search params, headers, in source order), endpoint middlewares
(whose returned context is discarded), and the handler applied to the
dispatcher-built context. -/
def dispatchTry (endpoints : List RouteEndpoint) (cfg : RouterConfig)
    (m : String) (req : Request) : List Event × Except Err Response :=
  match methodGuard endpoints req with
  | some e => ([], .error e)
  | none =>
    match executeGlobalMiddlewares req cfg.middlewares with
    | (evs, .error e) => (evs, .error e)
    | (evs, .ok (.shortCircuit r)) => (evs, .ok r)
    | (evs, .ok (.nextReq r)) =>
      match findEndpoint endpoints cfg m r.path with
      | none => (evs, .ok (responseJson "Not Found" 404 ""))
      | some ep =>
        match getBody r ep.config.schemas with
        | .error e => (evs, .error e)
        | .ok body =>
          match getRouteParams (withBasePath cfg ep.route) r.path with
          | .error e => (evs, .error e)
          | .ok rp =>
          match getSearchParams r ep.config.schemas with
          | .error e => (evs, .error e)
          | .ok sp =>
            let ctx : RequestContext :=
              ⟨rp, sp, getHeaders r, body⟩
            match runEmwList r ctx ep.config.middlewares with
            | (evs2, .error e) => (evs ++ evs2, .error e)
            | (evs2, .ok _) =>
              match ep.handler.run r ctx with
              | .error e =>
                (evs ++ evs2 ++ [.handlerRan ep.handler.id], .error e)
              | .ok resp =>
                (evs ++ evs2 ++ [.handlerRan ep.handler.id], .ok resp)

/-- Per-method handler of createRouter: the try block with every raised
error caught exactly once at this boundary and translated. -/
def dispatch (endpoints : List RouteEndpoint) (cfg : RouterConfig)
    (m : String) (req : Request) : List Event × Response :=
  match dispatchTry endpoints cfg m req with
  | (evs, .ok r) => (evs, r)
  | (evs, .error e) => (evs, translateError cfg e req)

/-- Model of createRouter as a value: the server object has one handler
per method group key.  Building performs no validation of configuration
values; in particular middleware entries are not inspected here. -/
def createRouter (endpoints : List RouteEndpoint) (cfg : RouterConfig) :
    List (String × (Request → List Event × Response)) :=
  (buildGroups endpoints).map (fun p => (p.1, dispatch endpoints cfg p.1))

/-!
Endpoint registration, from createEndpoint in src/src/endpoint.ts.
-/

/-- Handler argument of createEndpoint before validation: a function or
any other value. -/
inductive HandlerSlot where
  | fnVal (h : Handler)
  | notFnVal

/-- Model of isValidHandler: the typeof function check. -/
def isValidHandler : HandlerSlot → Bool
  | .fnVal _ => true
  | .notFnVal => false

/-- Model of createEndpoint: the method, route and handler are validated
in that order, each failure raising the corresponding Error; on success
the object with exactly the given fields is returned. -/
def createEndpoint (method route : String) (handler : HandlerSlot)
    (config : EndpointConfig) :
    Except String (String × String × HandlerSlot × EndpointConfig) :=
  if !isSupportedMethod method then
    .error ("Unsupported HTTP method: " ++ method)
  else if !isValidRoute route then
    .error ("Invalid route format: " ++ route)
  else if !isValidHandler handler then
    .error "Handler must be a function"
  else .ok (method, route, handler, config)

/-!
Reference-level model of the endpoint middleware chain, for the claims
about context identity.  Contexts live in a heap (a list of cells indexed
by address); a middleware receives the address of its context argument
and the heap, and returns the address of the context it returns together
with the possibly mutated heap.  This captures what the value-level
dispatch model cannot: the difference between mutating the received
object and returning a different one.
-/

/-- Observable content of a context cell. -/
structure CtxCell where
  marks : List String
  deriving DecidableEq

/-- Heap of context cells; the address of a cell is its index. -/
abbrev Heap : Type := List CtxCell

/-- Endpoint middleware at the reference level. -/
abbrev EMwRef : Type := Nat → Heap → Nat × Heap

/-- Model of executeMiddlewares at the reference level: the address
returned by each middleware is passed to the next one; the trace records
the address each middleware received. -/
def runEmwRefs : Nat → Heap → List EMwRef → Nat × Heap × List Nat
  | a, h, [] => (a, h, [])
  | a, h, mw :: rest =>
    let p := mw a h
    let q := runEmwRefs p.1 p.2 rest
    (q.1, q.2.1, a :: q.2.2)

/-- Model of lines 79 to 84 of src/src/router.ts at the reference level:
the dispatcher builds the context at a fresh address, runs the endpoint
middleware chain on it, discards the address the chain returns, and
invokes the handler with the address of the context it built.  The result
is (address passed to the handler, final heap, addresses received by the
middlewares in order, address returned by the chain). -/
def dispatchTailRef (initial : CtxCell) (mws : List EMwRef) :
    Nat × Heap × List Nat × Nat :=
  let a0 : Nat := 0
  let h0 : Heap := [initial]
  let r := runEmwRefs a0 h0 mws
  (a0, r.2.1, r.2.2, r.1)

/-!
Specification-side vocabulary: the segment criterion the spec states for
pattern matching, and the parameter names and captures read off the
segments.  These definitions follow the words of the spec and are
compared with the source-derived matcher in the claim theorems.
-/

/-- Prefix stripping: the remainder of x after an exact prefix s. -/
def stripPre : List Char → List Char → Option (List Char)
  | [], x => some x
  | _ :: _, [] => none
  | c :: s, y :: x => if c == y then stripPre s x else none

/-- Freedom from slashes. -/
def noSlash (l : List Char) : Bool := l.all (fun c => c != '/')

/-- Classification of a pattern segment as a parameter: it begins with a
colon. -/
def isParamSeg : List Char → Bool
  | [] => false
  | c :: _ => c == ':'

/-- Freedom from colons. -/
def noColon (l : List Char) : Bool := l.all (fun c => c != ':')

/-- Tokens a single segment contributes to the compiled pattern: the
capture group for a parameter segment, its own characters otherwise. -/
def segToks (seg : List Char) : List Tok :=
  if isParamSeg seg then [.group] else seg.map .lit

/-- Tokens of a segment list joined by literal slashes. -/
def toksOfSegs : List (List Char) → List Tok
  | [] => []
  | [s] => segToks s
  | s :: rest => segToks s ++ .lit '/' :: toksOfSegs rest

/-- Matching of one pattern segment against one path segment, as the spec
words it: a parameter segment takes any nonempty run of non-slash
characters, a literal segment must be equal verbatim. -/
def segMatchSpec (pseg xseg : List Char) : Bool :=
  if isParamSeg pseg then !xseg.isEmpty else pseg == xseg

/-- Segment criterion over whole segment lists: equal segment counts and
segmentwise matching. -/
def segsCriterion (psegs xsegs : List (List Char)) : Bool :=
  psegs.length == xsegs.length &&
    (List.zip psegs xsegs).all (fun q => segMatchSpec q.1 q.2)

/-- Criterion of the matching claim, stated on strings: the path has the
same number of slash-delimited segments as the pattern, literal segments
agree verbatim and parameter segments face a nonempty run. -/
def claimC4Criterion (p x : String) : Bool :=
  segsCriterion (splitSlash p.data) (splitSlash x.data)

/-- Path segments captured by the parameter segments, positionally. -/
def paramCaps (psegs xsegs : List (List Char)) : List (List Char) :=
  (List.zip psegs xsegs).filterMap
    (fun q => if isParamSeg q.1 then some q.2 else none)

/-- Well-formedness of a single pattern segment: either a pure parameter
(a colon followed by a nonempty colon-free name) or a colon-free literal. -/
def wellFormedSeg (s : List Char) : Bool :=
  if isParamSeg s then !s.tail.isEmpty && noColon s.tail else noColon s

/-- Well-formedness of a pattern: it passes isValidRoute and every
segment is well formed.  Mixed segments such as a:b are excluded; they
are exactly the segments on which the matching claim fails. -/
def wellFormedPattern (p : String) : Bool :=
  isValidRoute p && (splitSlash p.data).all wellFormedSeg

/-- Parameter names of a pattern in order of appearance, as the spec
reads them: the text after the colon of each parameter segment. -/
def specParamNames (p : String) : List String :=
  (splitSlash p.data).filterMap
    (fun s => if isParamSeg s then some (String.mk s.tail) else none)

/-- Run of the global middleware prefix in which every entry is callable
and passes a request on; used to phrase the short-circuit claims. -/
def runGmwPass : Request → List GMwEntry → Option (Request × List Event)
  | req, [] => some (req, [])
  | _, .notFn :: _ => none
  | req, .fn g :: rest =>
    match g.run req with
    | .ok (.nextReq r) =>
      (runGmwPass r rest).map (fun p => (p.1, .gmwRan g.id :: p.2))
    | _ => none

/-- Test for a global-middleware trace event. -/
def isGmwEvent : Event → Bool
  | .gmwRan _ => true
  | _ => false

/-!
Concrete fixtures used by witnesses and counterexamples.
-/

/-- Schema configuration with no validators. -/
def noSchemas : SchemasCfg := ⟨none, none⟩

/-- Handler returning a fixed response. -/
def constHandler (i : Nat) (r : Response) : Handler := ⟨i, fun _ _ => .ok r⟩

/-- Handler raising a fixed error. -/
def throwHandler (i : Nat) (e : Err) : Handler := ⟨i, fun _ _ => .error e⟩

/-- Plain GET request for a path, with no query, content type or body. -/
def plainGet (path : String) : Request :=
  ⟨"GET", path, [], none, .jnull, "", [], []⟩

/-- Request with an arbitrary method for a path. -/
def plainReq (method path : String) : Request :=
  ⟨method, path, [], none, .jnull, "", [], []⟩

/-- Endpoint with no schemas and no middlewares. -/
def plainEndpoint (method route : String) (h : Handler) : RouteEndpoint :=
  ⟨method, route, h, ⟨noSchemas, []⟩⟩

/-- Body schema accepting exactly an object with string fields username
and password, the shape of the credentials schema in the test suite. -/
def credSchema : Schema := fun j =>
  match j with
  | .obj [("username", .str u), ("password", .str p)] =>
    .ok (.obj [("username", .str u), ("password", .str p)])
  | _ => .error "Required"

/-- Credentials endpoint with the body schema, as in the test suite. -/
def credEndpoint : RouteEndpoint :=
  ⟨"POST", "/auth/credentials", constHandler 1 (responseJson "ok" 200 ""),
    ⟨⟨some credSchema, none⟩, []⟩⟩

/-- JSON POST of a body missing the password field. -/
def credBadRequest : Request :=
  ⟨"POST", "/auth/credentials", [], some "application/json",
    .obj [("username", .str "John")], "", [], []⟩

/-- Request whose declared content type is text/application/json: a
text/* type whose string also contains application/json. -/
def textJsonRequest : Request :=
  ⟨"POST", "/e", [], some "text/application/json", .str "fromJson",
    "fromText", [], []⟩

/-- Global middleware that always short-circuits with a fixed response. -/
def blockMw (i : Nat) (r : Response) : GMw := ⟨i, fun _ => .ok (.shortCircuit r)⟩

/-- Global middleware that passes the request through unchanged. -/
def passMw (i : Nat) : GMw := ⟨i, fun req => .ok (.nextReq req)⟩

/-- Reference-level middleware allocating a fresh context cell and
returning its address instead of the one it received. -/
def allocMwRef : EMwRef := fun _ h => (h.length, h ++ [⟨["fresh"]⟩])

/-- Reference-level middleware mutating the cell at the address it
received. -/
def mutateMwRef : EMwRef := fun a h => (a, h.set a ⟨["mutated"]⟩)

/-- Addresses obtained by threading each middleware's returned address
into the next middleware, starting from a given address: the
specification-side description of what each middleware receives. -/
def threadAddrs : Nat → Heap → List EMwRef → List Nat
  | _, _, [] => []
  | a, h, mw :: rest => a :: threadAddrs (mw a h).1 (mw a h).2 rest

/-- Router configuration whose global middleware list contains a
non-callable entry. -/
def badMwCfg : RouterConfig := ⟨none, some [.notFn], none⟩

/-- Fixed success response. -/
def okResp : Response := responseJson "ok" 200 ""

/-- Error hook returning a fixed response. -/
def okHook : Err → Request → Except Err Response :=
  fun _ _ => .ok (responseJson "hooked" 418 "TEAPOT")

/-- Error hook that itself fails. -/
def badHook : Err → Request → Except Err Response :=
  fun _ _ => .error (.plain "hook failed")

/-- Static endpoint registered before the dynamic one in the first-match
witness. -/
def epMe : RouteEndpoint := plainEndpoint "GET" "/users/me" (constHandler 1 okResp)

/-- Dynamic endpoint whose pattern also matches the static path. -/
def epId : RouteEndpoint := plainEndpoint "GET" "/users/:id" (constHandler 2 okResp)

/-!
Sanity checks of the embedded matcher and parameter extraction against
the behaviors recorded in the test suite.
-/

example : routeRegexMatches "/users/:id" "/users/123" = true := by decide
example : routeRegexMatches "/users/:id" "/users/" = false := by decide
example : routeRegexMatches "/users/:id" "/users/123/x" = false := by decide
example : routeRegexMatches "/USERS/:id" "/users/123" = false := by decide
example : routeRegexMatches "/" "/" = true := by decide
example :
    getRouteParams "/users/:userId/books/:bookId" "/users/123/books/456" =
      .ok [("userId", "123"), ("bookId", "456")] := rfl
example : getRouteParams "/users/:userId" "/users/123/books" = .ok [] := rfl
example : getRouteParams "/search/:query" "/search/hello%20world" =
    .ok [("query", "hello world")] := rfl
example : getRouteParams "/about" "/about" = .ok [] := rfl
example : decodeURIComponent "hello%20world" = some "hello world" := by decide
example : decodeURIComponent "%E2%82%AC" = some "€" := by decide
example : decodeURIComponent "%" = none := by decide
example : decodeURIComponent "%2" = none := by decide
example : decodeURIComponent "%GZ" = none := by decide
example : decodeURIComponent "%FF" = none := by decide
example : decodeURIComponent "%C0%AF" = none := by decide
example : decodeURIComponent "%ED%A0%80" = none := by decide

/-!
Lemmas about segment splitting and joining.
-/

theorem splitSlash_ne_nil (l : List Char) : splitSlash l ≠ [] := by
  induction l with
  | nil => simp [splitSlash]
  | cons c rest ih =>
    by_cases h : c == '/'
    · simp [splitSlash, h]
    · simp only [splitSlash, h, Bool.false_eq_true, if_false]
      cases hs : splitSlash rest with
      | nil => simp
      | cons s ss => simp

theorem splitSlash_noSlash {l : List Char} :
    ∀ s ∈ splitSlash l, noSlash s = true := by
  induction l with
  | nil =>
    intro s hs
    simp [splitSlash] at hs
    simp [hs, noSlash]
  | cons c rest ih =>
    intro s hs
    by_cases h : c == '/'
    · simp only [splitSlash, h, if_true, List.mem_cons] at hs
      rcases hs with hs | hs
      · simp [hs, noSlash]
      · exact ih s hs
    · simp only [splitSlash, h, Bool.false_eq_true, if_false] at hs
      cases hcase : splitSlash rest with
      | nil => exact absurd hcase (splitSlash_ne_nil rest)
      | cons s0 ss =>
        rw [hcase] at hs
        simp only [List.mem_cons] at hs
        rcases hs with hs | hs
        · subst hs
          have hs0 : noSlash s0 = true := ih s0 (by rw [hcase]; simp)
          simp only [noSlash, List.all_cons, Bool.and_eq_true] at hs0 ⊢
          refine ⟨?_, hs0⟩
          simpa using h
        · exact ih s (by rw [hcase]; exact List.mem_cons_of_mem s0 hs)

theorem joinSlash_splitSlash (l : List Char) :
    joinSlash (splitSlash l) = l := by
  induction l with
  | nil => simp [splitSlash, joinSlash]
  | cons c rest ih =>
    by_cases h : c == '/'
    · have hc : c = '/' := by simpa using h
      subst hc
      simp only [splitSlash, h, if_true]
      cases hcase : splitSlash rest with
      | nil => exact absurd hcase (splitSlash_ne_nil rest)
      | cons s ss =>
        simp only [joinSlash]
        rw [← hcase, ih]
        simp
    · simp only [splitSlash, h, Bool.false_eq_true, if_false]
      cases hcase : splitSlash rest with
      | nil => exact absurd hcase (splitSlash_ne_nil rest)
      | cons s ss =>
        rw [hcase] at ih
        cases ss with
        | nil => simp only [joinSlash] at ih ⊢; rw [ih]
        | cons s2 ss2 => simp only [joinSlash] at ih ⊢; rw [List.cons_append, ih]

theorem splitSlash_of_noSlash {l : List Char} (h : noSlash l = true) :
    splitSlash l = [l] := by
  induction l with
  | nil => simp [splitSlash]
  | cons c rest ih =>
    simp only [noSlash, List.all_cons, Bool.and_eq_true] at h
    have hc : (c == '/') = false := by
      rcases h with ⟨h1, _⟩
      simpa using h1
    have hrest : splitSlash rest = [rest] := ih (by simp [noSlash, h.2])
    simp [splitSlash, hc, hrest]

theorem splitSlash_append {a b : List Char} (h : noSlash a = true) :
    splitSlash (a ++ '/' :: b) = a :: splitSlash b := by
  induction a with
  | nil => simp [splitSlash]
  | cons c rest ih =>
    simp only [noSlash, List.all_cons, Bool.and_eq_true] at h
    have hc : (c == '/') = false := by
      rcases h with ⟨h1, _⟩
      simpa using h1
    have := ih (by simp [noSlash, h.2])
    simp [splitSlash, hc, this]

theorem takeNonSlash_of_noSlash {l : List Char} (h : noSlash l = true) :
    takeNonSlash l = (l, []) := by
  induction l with
  | nil => simp [takeNonSlash]
  | cons c rest ih =>
    simp only [noSlash, List.all_cons, Bool.and_eq_true] at h
    have hc : (c == '/') = false := by
      rcases h with ⟨h1, _⟩
      simpa using h1
    have := ih (by simp [noSlash, h.2])
    simp [takeNonSlash, hc, this]

theorem takeNonSlash_append {a b : List Char} (h : noSlash a = true) :
    takeNonSlash (a ++ '/' :: b) = (a, '/' :: b) := by
  induction a with
  | nil => simp [takeNonSlash]
  | cons c rest ih =>
    simp only [noSlash, List.all_cons, Bool.and_eq_true] at h
    have hc : (c == '/') = false := by
      rcases h with ⟨h1, _⟩
      simpa using h1
    have := ih (by simp [noSlash, h.2])
    simp [takeNonSlash, hc, this]

/-!
Lemmas about the compilation pipeline: the two replacements and the
parse, on well-formed input.
-/

theorem rpAux_false_noColon {s : List Char}
    (h : ∀ c ∈ s, (c == ':') = false) (t : List Char) :
    rpAux false (s ++ t) = s ++ rpAux false t := by
  induction s with
  | nil => simp
  | cons c rest ih =>
    have hc := h c (by simp)
    have hrest : ∀ c ∈ rest, (c == ':') = false := fun d hm => h d (by simp [hm])
    simp [rpAux, hc, ih hrest]

theorem rpAux_true_noSlash {n : List Char} (h : noSlash n = true)
    (t : List Char) : rpAux true (n ++ t) = rpAux true t := by
  induction n with
  | nil => simp
  | cons c rest ih =>
    simp only [noSlash, List.all_cons, Bool.and_eq_true] at h
    have hc : (c == '/') = false := by
      rcases h with ⟨h1, _⟩
      simpa using h1
    simp [rpAux, hc, ih (by simp [noSlash, h.2])]

theorem rpAux_true_slash (l : List Char) :
    rpAux true ('/' :: l) = '/' :: rpAux false l := by
  simp [rpAux]

theorem rpAux_false_param {name : List Char} (hne : name ≠ [])
    (hns : noSlash name = true) (t : List Char) :
    rpAux false (':' :: name ++ t) = grpChars ++ rpAux true (name ++ t) := by
  cases name with
  | nil => exact absurd rfl hne
  | cons d rest =>
    simp only [noSlash, List.all_cons, Bool.and_eq_true] at hns
    have hd : (d == '/') = false := by
      rcases hns with ⟨h1, _⟩
      simpa using h1
    simp [rpAux, hd]

theorem escapeSlashes_append (a b : List Char) :
    escapeSlashes (a ++ b) = escapeSlashes a ++ escapeSlashes b := by
  induction a with
  | nil => simp [escapeSlashes]
  | cons c rest ih =>
    by_cases hc : c == '/' <;> simp [escapeSlashes, hc, ih]

theorem escapeSlashes_of_noSlash {s : List Char} (h : noSlash s = true) :
    escapeSlashes s = s := by
  induction s with
  | nil => simp [escapeSlashes]
  | cons c rest ih =>
    simp only [noSlash, List.all_cons, Bool.and_eq_true] at h
    have hc : (c == '/') = false := by
      rcases h with ⟨h1, _⟩
      simpa using h1
    simp [escapeSlashes, hc, ih (by simp [noSlash, h.2])]

theorem escapeSlashes_slash (l : List Char) :
    escapeSlashes ('/' :: l) = '\\' :: '/' :: escapeSlashes l := by
  simp [escapeSlashes]

theorem escapeSlashes_grpChars : escapeSlashes grpChars = grpEsc := by decide

theorem parseToks_plain_cons {c : Char} (h1 : (c == '\\') = false)
    (h2 : (c == '(') = false) (l : List Char) :
    parseToks (c :: l) = .lit c :: parseToks l := by
  simp [parseToks, parseAux, h1, h2]

theorem parseToks_lits {s : List Char}
    (h : ∀ c ∈ s, (c == '\\') = false ∧ (c == '(') = false) (l : List Char) :
    parseToks (s ++ l) = s.map .lit ++ parseToks l := by
  induction s with
  | nil => simp
  | cons c rest ih =>
    have hc := h c (by simp)
    have hrest : ∀ d ∈ rest, (d == '\\') = false ∧ (d == '(') = false :=
      fun d hm => h d (by simp [hm])
    simp [parseToks_plain_cons hc.1 hc.2, ih hrest]

theorem parseToks_escSlash (l : List Char) :
    parseToks ('\\' :: '/' :: l) = .lit '/' :: parseToks l := by
  simp [parseToks, parseAux]

theorem parseToks_grpEsc (l : List Char) :
    parseToks (grpEsc ++ l) = .group :: parseToks l := rfl

theorem validChar_props {c : Char} (h : isValidRouteChar c = true) :
    (c == '\\') = false ∧ (c == '(') = false := by
  constructor
  · by_contra hx
    have hb : (c == '\\') = true := by
      cases hv : c == '\\'
      · exact absurd hv hx
      · rfl
    have hc : c = '\\' := by simpa using hb
    subst hc
    exact absurd h (by decide)
  · by_contra hx
    have hb : (c == '(') = true := by
      cases hv : c == '('
      · exact absurd hv hx
      · rfl
    have hc : c = '(' := by simpa using hb
    subst hc
    exact absurd h (by decide)

theorem isValidRoute_chars {p : String} (h : isValidRoute p = true) :
    ∀ c ∈ p.data, isValidRouteChar c = true := by
  unfold isValidRoute at h
  cases hd : p.data with
  | nil => rw [hd] at h; cases h
  | cons c0 rest =>
    rw [hd] at h
    simp only [Bool.and_eq_true] at h
    have hc0 : c0 = '/' := by
      have := h.1
      simpa using this
    intro c hc
    simp only [List.mem_cons] at hc
    rcases hc with hc | hc
    · subst hc; subst hc0; decide
    · exact (List.all_eq_true.mp h.2) c hc

theorem splitSlash_chars {l : List Char} :
    ∀ s ∈ splitSlash l, ∀ c ∈ s, c ∈ l := by
  induction l with
  | nil =>
    intro s hs c hc
    simp [splitSlash] at hs
    subst hs
    cases hc
  | cons c0 rest ih =>
    intro s hs c hc
    by_cases h0 : c0 == '/'
    · simp only [splitSlash, h0, if_true, List.mem_cons] at hs
      rcases hs with hs | hs
      · subst hs; cases hc
      · exact List.mem_cons_of_mem c0 (ih s hs c hc)
    · simp only [splitSlash, h0, Bool.false_eq_true, if_false] at hs
      cases hcase : splitSlash rest with
      | nil => exact absurd hcase (splitSlash_ne_nil rest)
      | cons s0 ss =>
        rw [hcase] at hs
        simp only [List.mem_cons] at hs
        rcases hs with hs | hs
        · subst hs
          simp only [List.mem_cons] at hc
          rcases hc with hc | hc
          · subst hc; simp
          · have := ih s0 (by rw [hcase]; simp) c hc
            simp [this]
        · have := ih s (by rw [hcase]; exact List.mem_cons_of_mem s0 hs) c hc
          simp [this]

/-- Processing of one literal segment at the end of the pattern. -/
theorem pipeline_lit_end {s : List Char}
    (hnc : ∀ c ∈ s, (c == ':') = false) (hns : noSlash s = true)
    (hplain : ∀ c ∈ s, (c == '\\') = false ∧ (c == '(') = false) :
    parseToks (escapeSlashes (rpAux false s)) = s.map .lit := by
  have h1 : rpAux false s = s := by
    have := rpAux_false_noColon hnc []
    simpa [rpAux] using this
  rw [h1, escapeSlashes_of_noSlash hns]
  have := parseToks_lits hplain []
  simpa [parseToks, parseAux] using this

/-- Processing of one literal segment followed by a slash and the rest. -/
theorem pipeline_lit_more {s : List Char} (J : List Char)
    (hnc : ∀ c ∈ s, (c == ':') = false) (hns : noSlash s = true)
    (hplain : ∀ c ∈ s, (c == '\\') = false ∧ (c == '(') = false) :
    parseToks (escapeSlashes (rpAux false (s ++ '/' :: J))) =
      s.map .lit ++ .lit '/' :: parseToks (escapeSlashes (rpAux false J)) := by
  rw [rpAux_false_noColon hnc]
  have hstep : rpAux false ('/' :: J) = '/' :: rpAux false J := by
    simp [rpAux]
  rw [hstep, escapeSlashes_append, escapeSlashes_of_noSlash hns,
    escapeSlashes_slash, parseToks_lits hplain, parseToks_escSlash]

/-- Processing of one parameter segment at the end of the pattern. -/
theorem pipeline_param_end {name : List Char} (hne : name ≠ [])
    (hns : noSlash name = true) :
    parseToks (escapeSlashes (rpAux false (':' :: name))) = [.group] := by
  have h2 : rpAux true name = [] := by
    have := rpAux_true_noSlash hns []
    simpa [rpAux] using this
  have h1 : rpAux false (':' :: name) = grpChars := by
    have := rpAux_false_param hne hns []
    simpa [h2] using this
  rw [h1, escapeSlashes_grpChars]
  have := parseToks_grpEsc []
  simpa [parseToks, parseAux] using this

/-- Processing of one parameter segment followed by a slash and the rest. -/
theorem pipeline_param_more {name : List Char} (J : List Char)
    (hne : name ≠ []) (hns : noSlash name = true) :
    parseToks (escapeSlashes (rpAux false (':' :: name ++ '/' :: J))) =
      .group :: .lit '/' :: parseToks (escapeSlashes (rpAux false J)) := by
  have h1 : rpAux false (':' :: name ++ '/' :: J) =
      grpChars ++ '/' :: rpAux false J := by
    have := rpAux_false_param hne hns ('/' :: J)
    rw [rpAux_true_noSlash hns, rpAux_true_slash] at this
    simpa using this
  rw [h1, escapeSlashes_append, escapeSlashes_grpChars, escapeSlashes_slash,
    parseToks_grpEsc, parseToks_escSlash]

/-- Compilation of a joined well-formed segment list: the pipeline of
replaceParams, escapeSlashes and parseToks produces exactly the segment
tokens joined with literal slashes. -/
theorem pipeline_eq_toksOfSegs :
    ∀ segs : List (List Char), segs ≠ [] →
      (∀ s ∈ segs, wellFormedSeg s = true) →
      (∀ s ∈ segs, noSlash s = true) →
      (∀ s ∈ segs, ∀ c ∈ s, isValidRouteChar c = true) →
      parseToks (escapeSlashes (rpAux false (joinSlash segs))) =
        toksOfSegs segs := by
  intro segs
  induction segs with
  | nil => intro h; exact absurd rfl h
  | cons s rest ih =>
    intro _ hwf hns hvc
    have hwfs := hwf s (by simp)
    have hnss := hns s (by simp)
    have hvcs := hvc s (by simp)
    have hplain : ∀ c ∈ s, (c == '\\') = false ∧ (c == '(') = false :=
      fun c hm => validChar_props (hvcs c hm)
    by_cases hp : isParamSeg s
    · obtain ⟨name, hname⟩ : ∃ name, s = ':' :: name := by
        cases s with
        | nil => simp [isParamSeg] at hp
        | cons c cs =>
          have : c = ':' := by simpa [isParamSeg] using hp
          exact ⟨cs, by rw [this]⟩
      have hnamene : name ≠ [] := by
        intro hcon
        rw [hname, hcon] at hwfs
        simp [wellFormedSeg, isParamSeg] at hwfs
      have hnamens : noSlash name = true := by
        have h2 := hnss
        rw [hname] at h2
        simp only [noSlash, List.all_cons, Bool.and_eq_true] at h2
        simpa [noSlash] using h2.2
      cases rest with
      | nil =>
        subst hname
        simp only [joinSlash]
        rw [pipeline_param_end hnamene hnamens]
        simp [toksOfSegs, segToks, isParamSeg]
      | cons s2 rest2 =>
        subst hname
        have hjoin : joinSlash ((':' :: name) :: s2 :: rest2) =
            ':' :: name ++ '/' :: joinSlash (s2 :: rest2) := rfl
        rw [hjoin, pipeline_param_more _ hnamene hnamens]
        have ihr := ih (by simp)
          (fun x hx => hwf x (by simp [hx]))
          (fun x hx => hns x (by simp [hx]))
          (fun x hx => hvc x (by simp [hx]))
        rw [ihr]
        simp [toksOfSegs, segToks, isParamSeg]
    · have hnc : ∀ c ∈ s, (c == ':') = false := by
        intro c hm
        have hl : noColon s = true := by
          unfold wellFormedSeg at hwfs
          rw [if_neg (by simp [hp])] at hwfs
          exact hwfs
        have := (List.all_eq_true.mp hl) c hm
        simpa using this
      cases rest with
      | nil =>
        simp only [joinSlash]
        rw [pipeline_lit_end hnc hnss hplain]
        simp [toksOfSegs, segToks, hp]
      | cons s2 rest2 =>
        have hjoin : joinSlash (s :: s2 :: rest2) =
            s ++ '/' :: joinSlash (s2 :: rest2) := rfl
        rw [hjoin, pipeline_lit_more _ hnc hnss hplain]
        have ihr := ih (by simp)
          (fun x hx => hwf x (by simp [hx]))
          (fun x hx => hns x (by simp [hx]))
          (fun x hx => hvc x (by simp [hx]))
        rw [ihr]
        simp [toksOfSegs, segToks, hp]

/-!
Lemmas about the token matcher.
-/

theorem regexExec_litend (s : List Char) :
    ∀ x : List Char, regexExec (s.map .lit) x = if s == x then some [] else none := by
  induction s with
  | nil =>
    intro x
    cases x with
    | nil => simp [regexExec]
    | cons d xs => simp [regexExec]
  | cons c s' ih =>
    intro x
    cases x with
    | nil => simp [regexExec]
    | cons d xs =>
      have hbeq : ((c :: s' : List Char) == d :: xs) = (c == d && s' == xs) := rfl
      by_cases hc : c == d
      · simp [regexExec, hc, ih, hbeq]
      · simp [regexExec, hc, hbeq]

theorem noSlash_head {d : List Char} {c : Char} (h : noSlash (c :: d) = true) :
    (c == '/') = false := by
  simp only [noSlash, List.all_cons, Bool.and_eq_true] at h
  rcases h with ⟨h1, _⟩
  simpa using h1

theorem noSlash_tail {d : List Char} {c : Char} (h : noSlash (c :: d) = true) :
    noSlash d = true := by
  simp only [noSlash, List.all_cons, Bool.and_eq_true] at h
  exact h.2

theorem regexExec_litseg {s : List Char} (T : List Tok) (x2 : List Char)
    (hs : noSlash s = true) :
    ∀ x0 : List Char, noSlash x0 = true →
      regexExec (s.map .lit ++ .lit '/' :: T) (x0 ++ '/' :: x2) =
        if s == x0 then regexExec T x2 else none := by
  induction s with
  | nil =>
    intro x0 hx
    cases x0 with
    | nil => simp [regexExec]
    | cons d x0' =>
      have hd : ('/' == d) = false := by
        have := noSlash_head hx
        have hne : ¬ d = '/' := by simpa using this
        simp [Ne.symm hne]
      simp [regexExec, hd]
  | cons c s' ih =>
    intro x0 hx
    cases x0 with
    | nil =>
      have hc : (c == '/') = false := noSlash_head hs
      simp [regexExec, hc]
    | cons d x0' =>
      have hbeq : ((c :: s' : List Char) == d :: x0') = (c == d && s' == x0') :=
        rfl
      by_cases hc : c == d
      · have := ih (noSlash_tail hs) x0' (noSlash_tail hx)
        simp [regexExec, hc, this, hbeq]
      · simp [regexExec, hc, hbeq]

theorem stripPre_noSlash {s : List Char} :
    ∀ x x2 : List Char, noSlash x = true → stripPre s x = some x2 →
      noSlash x2 = true := by
  induction s with
  | nil =>
    intro x x2 hx h
    simp [stripPre] at h
    subst h
    exact hx
  | cons c s' ih =>
    intro x x2 hx h
    cases x with
    | nil => simp [stripPre] at h
    | cons d xs =>
      by_cases hc : c == d
      · simp only [stripPre, hc, if_true] at h
        exact ih xs x2 (noSlash_tail hx) h
      · simp [stripPre, hc] at h

theorem regexExec_lits (s : List Char) (ts : List Tok) :
    ∀ x : List Char, regexExec (s.map .lit ++ ts) x =
      match stripPre s x with
      | some x2 => regexExec ts x2
      | none => none := by
  induction s with
  | nil => intro x; simp [stripPre]
  | cons c s' ih =>
    intro x
    cases x with
    | nil => simp [regexExec, stripPre]
    | cons d xs =>
      by_cases hc : c == d
      · simp [regexExec, stripPre, hc, ih]
      · simp [regexExec, stripPre, hc]

theorem noSlash_cons (c : Char) (l : List Char) :
    noSlash (c :: l) = (!(c == '/') && noSlash l) := by
  simp [noSlash, List.all_cons, bne]

theorem grpCont_nil (k : List Char → Option (List (List Char))) :
    grpCont k [] = (k []).map (fun caps => ([], caps)) := rfl

theorem grpCont_cons (k : List Char → Option (List (List Char))) (y : Char)
    (ys : List Char) :
    grpCont k (y :: ys) =
      if y == '/' then (k (y :: ys)).map (fun caps => ([], caps))
      else
        match grpCont k ys with
        | some (more, caps) => some (y :: more, caps)
        | none => (k (y :: ys)).map (fun caps => ([], caps)) := rfl

theorem regexExec_nil_eq (x : List Char) :
    regexExec [] x = if x.isEmpty then some [] else none := rfl

theorem regexExec_lit_cons (c : Char) (ts : List Tok) (x : Char)
    (xs : List Char) :
    regexExec (.lit c :: ts) (x :: xs) =
      if c == x then regexExec ts xs else none := rfl

theorem regexExec_lit_nil (c : Char) (ts : List Tok) :
    regexExec (.lit c :: ts) [] = none := rfl

theorem regexExec_group_cons (ts : List Tok) (c : Char) (xs : List Char) :
    regexExec (.group :: ts) (c :: xs) =
      if c == '/' then none
      else (grpCont (regexExec ts) xs).map (fun pr => (c :: pr.1) :: pr.2) :=
  rfl

theorem regexExec_group_nil (ts : List Tok) :
    regexExec (.group :: ts) [] = none := rfl

theorem grpCont_end (ys : List Char) :
    grpCont (regexExec []) ys =
      if noSlash ys then some (ys, ([] : List (List Char))) else none := by
  induction ys with
  | nil => simp [grpCont_nil, regexExec_nil_eq, noSlash]
  | cons y ys' ih =>
    rw [grpCont_cons]
    by_cases hy : y == '/'
    · have hy' : y = '/' := by simpa using hy
      subst hy'
      rw [if_pos hy]
      simp [regexExec_nil_eq, noSlash_cons]
    · rw [if_neg (by simpa using hy), ih, noSlash_cons,
        (by simpa using hy : (y == '/') = false)]
      by_cases hns : noSlash ys'
      · rw [if_pos hns, hns]
        simp
      · rw [if_neg (by simpa using hns), (by simpa using hns : noSlash ys' = false)]
        simp [regexExec_nil_eq]

theorem regexExec_group_end (x : List Char) :
    regexExec [.group] x =
      if !x.isEmpty && noSlash x then some [x] else none := by
  cases x with
  | nil => simp [regexExec_group_nil]
  | cons c xs =>
    rw [regexExec_group_cons]
    by_cases hc : c == '/'
    · have hc' : c = '/' := by simpa using hc
      subst hc'
      rw [if_pos hc]
      simp [noSlash_cons]
    · rw [if_neg (by simpa using hc), grpCont_end, noSlash_cons,
        (by simpa using hc : (c == '/') = false)]
      by_cases hns : noSlash xs
      · rw [if_pos hns, hns]
        simp
      · rw [if_neg (by simpa using hns),
          (by simpa using hns : noSlash xs = false)]
        simp

theorem grpCont_slash_decomp {a : List Char} (T : List Tok) (b : List Char)
    (ha : noSlash a = true) :
    grpCont (regexExec (.lit '/' :: T)) (a ++ '/' :: b) =
      (regexExec T b).map (fun caps => (a, caps)) := by
  induction a with
  | nil =>
    rw [List.nil_append, grpCont_cons, if_pos (by simp)]
    rw [regexExec_lit_cons, if_pos (by simp)]
  | cons c a' ih =>
    have hc : (c == '/') = false := noSlash_head ha
    rw [show ((c :: a') ++ '/' :: b : List Char) = c :: (a' ++ '/' :: b) from
      rfl]
    rw [grpCont_cons, if_neg (by simp [hc])]
    rw [ih (noSlash_tail ha)]
    cases hT : regexExec T b with
    | none =>
      have hstep : regexExec (.lit '/' :: T) (c :: (a' ++ '/' :: b)) = none := by
        rw [regexExec_lit_cons]
        have hne : ¬ c = '/' := by simpa using hc
        rw [if_neg (by simpa using Ne.symm hne)]
      simp [hstep]
    | some caps => simp

theorem grpCont_slash_none (T : List Tok) :
    ∀ ys : List Char, noSlash ys = true →
      grpCont (regexExec (.lit '/' :: T)) ys = none := by
  intro ys
  induction ys with
  | nil =>
    intro _
    rw [grpCont_nil, regexExec_lit_nil]
    rfl
  | cons y ys' ih =>
    intro h
    have hy : (y == '/') = false := noSlash_head h
    rw [grpCont_cons, if_neg (by simp [hy]), ih (noSlash_tail h)]
    have hstep : regexExec (.lit '/' :: T) (y :: ys') = none := by
      rw [regexExec_lit_cons]
      have hne : ¬ y = '/' := by simpa using hy
      rw [if_neg (by simpa using Ne.symm hne)]
    simp [hstep]

theorem regexExec_group_seg {a : List Char} (T : List Tok) (b : List Char)
    (ha : noSlash a = true) :
    regexExec (.group :: .lit '/' :: T) (a ++ '/' :: b) =
      if a.isEmpty then none
      else (regexExec T b).map (fun caps => a :: caps) := by
  cases a with
  | nil =>
    rw [List.nil_append, regexExec_group_cons, if_pos (by simp)]
    simp
  | cons c a' =>
    have hc : (c == '/') = false := noSlash_head ha
    rw [show ((c :: a') ++ '/' :: b : List Char) = c :: (a' ++ '/' :: b) from
      rfl]
    rw [regexExec_group_cons, if_neg (by simp [hc])]
    rw [grpCont_slash_decomp T b (noSlash_tail ha)]
    rw [if_neg (by simp)]
    cases regexExec T b with
    | none => simp
    | some caps => simp

theorem regexExec_group_noslash (T : List Tok) (x : List Char)
    (hx : noSlash x = true) :
    regexExec (.group :: .lit '/' :: T) x = none := by
  cases x with
  | nil => simp [regexExec_group_nil]
  | cons c xs =>
    rw [regexExec_group_cons]
    by_cases hc : c == '/'
    · rw [if_pos hc]
    · rw [if_neg (by simpa using hc), grpCont_slash_none T xs (noSlash_tail hx)]
      simp

theorem segsCriterion_cons (s x : List Char) (ps xs : List (List Char)) :
    segsCriterion (s :: ps) (x :: xs) =
      (segMatchSpec s x && segsCriterion ps xs) := by
  simp only [segsCriterion, List.length_cons, List.zip_cons_cons,
    List.all_cons]
  have hlen : (ps.length + 1 == xs.length + 1) = (ps.length == xs.length) := by
    cases hv : ps.length == xs.length
    · have : ps.length ≠ xs.length := by simpa using hv
      simpa using fun hcon => this (Nat.succ_injective hcon)
    · have : ps.length = xs.length := by simpa using hv
      simp [this]
  rw [hlen]
  cases segMatchSpec s x <;> cases ps.length == xs.length <;>
    cases (List.zip ps xs).all (fun q => segMatchSpec q.1 q.2) <;> simp

theorem paramCaps_cons (s x : List Char) (ps xs : List (List Char)) :
    paramCaps (s :: ps) (x :: xs) =
      if isParamSeg s then x :: paramCaps ps xs else paramCaps ps xs := by
  simp only [paramCaps, List.zip_cons_cons, List.filterMap_cons]
  by_cases hp : isParamSeg s <;> simp [hp]

theorem segsCriterion_false_of_len {ps xs : List (List Char)}
    (h : ps.length ≠ xs.length) : segsCriterion ps xs = false := by
  simp only [segsCriterion]
  have hb : (ps.length == xs.length) = false := by simpa using h
  simp [hb]

theorem noSlash_append_slash (a b : List Char) :
    noSlash (a ++ '/' :: b) = false := by
  induction a with
  | nil => simp [noSlash_cons]
  | cons c a' ih => simp [noSlash_cons, ih]

theorem noSlash_ne_slashed {s : List Char} (x0 J : List Char)
    (hs : noSlash s = true) : (s == x0 ++ '/' :: J) = false := by
  cases hv : s == x0 ++ '/' :: J with
  | false => rfl
  | true =>
    have heq : s = x0 ++ '/' :: J := by simpa using hv
    rw [heq, noSlash_append_slash] at hs
    cases hs

/-- Matching of the compiled tokens of a segment list against a joined
path is exactly the segment criterion, and the captures are exactly the
path segments facing parameter segments. -/
theorem regexExec_toksOfSegs :
    ∀ psegs xsegs : List (List Char), psegs ≠ [] → xsegs ≠ [] →
      (∀ s ∈ psegs, noSlash s = true) → (∀ s ∈ xsegs, noSlash s = true) →
      regexExec (toksOfSegs psegs) (joinSlash xsegs) =
        if segsCriterion psegs xsegs then some (paramCaps psegs xsegs)
        else none := by
  intro psegs
  induction psegs with
  | nil => intro xsegs h; exact absurd rfl h
  | cons s prest ih =>
    intro xsegs _ hxne hpns hxns
    have hss : noSlash s = true := hpns s (by simp)
    cases xsegs with
    | nil => exact absurd rfl hxne
    | cons x0 xrest =>
      have hx0 : noSlash x0 = true := hxns x0 (by simp)
      cases prest with
      | nil =>
        cases xrest with
        | nil =>
          rw [show joinSlash [x0] = x0 from rfl,
            show toksOfSegs [s] = segToks s from rfl]
          by_cases hp : isParamSeg s
          · rw [show segToks s = [.group] by simp [segToks, hp]]
            rw [regexExec_group_end, hx0]
            rw [segsCriterion_cons, paramCaps_cons]
            by_cases he : x0.isEmpty <;>
              simp [segMatchSpec, hp, he, segsCriterion, paramCaps]
          · rw [show segToks s = s.map .lit by simp [segToks, hp]]
            rw [regexExec_litend]
            rw [segsCriterion_cons, paramCaps_cons]
            by_cases hse : s == x0 <;>
              simp [segMatchSpec, hp, hse, segsCriterion, paramCaps]
        | cons x1 xrest2 =>
          have hcrit : segsCriterion [s] (x0 :: x1 :: xrest2) = false :=
            segsCriterion_false_of_len (by simp)
          rw [hcrit,
            show joinSlash (x0 :: x1 :: xrest2) =
              x0 ++ '/' :: joinSlash (x1 :: xrest2) from rfl,
            show toksOfSegs [s] = segToks s from rfl]
          by_cases hp : isParamSeg s
          · rw [show segToks s = [.group] by simp [segToks, hp]]
            rw [regexExec_group_end, noSlash_append_slash]
            simp
          · rw [show segToks s = s.map .lit by simp [segToks, hp]]
            rw [regexExec_litend, noSlash_ne_slashed _ _ hss]
            simp
      | cons s2 prest2 =>
        have htk : toksOfSegs (s :: s2 :: prest2) =
            segToks s ++ .lit '/' :: toksOfSegs (s2 :: prest2) := rfl
        cases xrest with
        | nil =>
          have hcrit : segsCriterion (s :: s2 :: prest2) [x0] = false :=
            segsCriterion_false_of_len (by simp)
          rw [hcrit, show joinSlash [x0] = x0 from rfl, htk]
          by_cases hp : isParamSeg s
          · rw [show segToks s = [.group] by simp [segToks, hp]]
            rw [show ([Tok.group] ++ .lit '/' :: toksOfSegs (s2 :: prest2) :
                List Tok) = .group :: .lit '/' :: toksOfSegs (s2 :: prest2)
                from rfl]
            rw [regexExec_group_noslash _ _ hx0]
            simp
          · rw [show segToks s = s.map .lit by simp [segToks, hp]]
            rw [regexExec_lits]
            cases hsp : stripPre s x0 with
            | none => simp
            | some x2 =>
              have hx2 : noSlash x2 = true := stripPre_noSlash x0 x2 hx0 hsp
              cases x2 with
              | nil => simp [regexExec_lit_nil]
              | cons d x2' =>
                have hd : ('/' == d) = false := by
                  have hdd := noSlash_head hx2
                  have hne : ¬ d = '/' := by simpa using hdd
                  simpa using Ne.symm hne
                simp [regexExec_lit_cons, hd]
        | cons x1 xrest2 =>
          have hjoin : joinSlash (x0 :: x1 :: xrest2) =
              x0 ++ '/' :: joinSlash (x1 :: xrest2) := rfl
          rw [hjoin, htk, segsCriterion_cons, paramCaps_cons]
          have ihr := ih (x1 :: xrest2) (by simp) (by simp)
            (fun t ht => hpns t (by simp [ht]))
            (fun t ht => hxns t (by simp [ht]))
          by_cases hp : isParamSeg s
          · rw [show segToks s = [.group] by simp [segToks, hp]]
            rw [show ([Tok.group] ++ .lit '/' :: toksOfSegs (s2 :: prest2) :
                List Tok) = .group :: .lit '/' :: toksOfSegs (s2 :: prest2)
                from rfl]
            rw [regexExec_group_seg _ _ hx0, ihr]
            by_cases he : x0.isEmpty <;>
              by_cases hcr : segsCriterion (s2 :: prest2) (x1 :: xrest2) <;>
                simp [segMatchSpec, hp, he, hcr]
          · rw [show segToks s = s.map .lit by simp [segToks, hp]]
            rw [regexExec_litseg _ _ hss x0 hx0, ihr]
            by_cases hse : s == x0 <;>
              by_cases hcr : segsCriterion (s2 :: prest2) (x1 :: xrest2) <;>
                simp [segMatchSpec, hp, hse, hcr]

/-!
Assembly: the compiled pattern of a well-formed route, and the
characterization of matching and parameter extraction.
-/

theorem createRoutePattern_wf {p : String} (h : wellFormedPattern p = true) :
    createRoutePattern p = toksOfSegs (splitSlash p.data) := by
  simp only [wellFormedPattern, Bool.and_eq_true] at h
  have hvr : isValidRoute p = true := h.1
  have hwf : ∀ s ∈ splitSlash p.data, wellFormedSeg s = true := by
    intro s hs
    exact (List.all_eq_true.mp h.2) s hs
  have hns : ∀ s ∈ splitSlash p.data, noSlash s = true :=
    fun s hs => splitSlash_noSlash s hs
  have hvc : ∀ s ∈ splitSlash p.data, ∀ c ∈ s, isValidRouteChar c = true :=
    fun s hs c hc => isValidRoute_chars hvr c (splitSlash_chars s hs c hc)
  have hmain := pipeline_eq_toksOfSegs (splitSlash p.data)
    (splitSlash_ne_nil _) hwf hns hvc
  rw [joinSlash_splitSlash] at hmain
  exact hmain

theorem segsCriterion_len {ps xs : List (List Char)}
    (h : segsCriterion ps xs = true) : ps.length = xs.length := by
  simp only [segsCriterion, Bool.and_eq_true] at h
  simpa using h.1

theorem segsCriterion_self {segs : List (List Char)}
    (h : ∀ s ∈ segs, wellFormedSeg s = true) :
    segsCriterion segs segs = true := by
  induction segs with
  | nil => simp [segsCriterion]
  | cons s rest ih =>
    rw [segsCriterion_cons]
    have h2 := ih (fun t ht => h t (by simp [ht]))
    have hm : segMatchSpec s s = true := by
      by_cases hp : isParamSeg s
      · cases s with
        | nil => simp [isParamSeg] at hp
        | cons c cs => simp [segMatchSpec, hp]
      · simp [segMatchSpec, hp]
    simp [hm, h2]

theorem routeRegexMatches_wf {p : String} (x : String)
    (h : wellFormedPattern p = true) :
    routeRegexMatches p x = claimC4Criterion p x := by
  unfold routeRegexMatches regexTest claimC4Criterion
  rw [createRoutePattern_wf h]
  have hB := regexExec_toksOfSegs (splitSlash p.data) (splitSlash x.data)
    (splitSlash_ne_nil _) (splitSlash_ne_nil _)
    (fun s hs => splitSlash_noSlash s hs)
    (fun s hs => splitSlash_noSlash s hs)
  rw [joinSlash_splitSlash] at hB
  rw [hB]
  by_cases hc : segsCriterion (splitSlash p.data) (splitSlash x.data) <;>
    simp [hc]

theorem regexExec_wf_path {p x : String} (h : wellFormedPattern p = true)
    (hm : routeRegexMatches p x = true) :
    regexExec (createRoutePattern p) x.data =
      some (paramCaps (splitSlash p.data) (splitSlash x.data)) := by
  rw [createRoutePattern_wf h]
  have hB := regexExec_toksOfSegs (splitSlash p.data) (splitSlash x.data)
    (splitSlash_ne_nil _) (splitSlash_ne_nil _)
    (fun s hs => splitSlash_noSlash s hs)
    (fun s hs => splitSlash_noSlash s hs)
  rw [joinSlash_splitSlash] at hB
  have hcrit : segsCriterion (splitSlash p.data) (splitSlash x.data) = true := by
    have := routeRegexMatches_wf x h
    rw [hm] at this
    unfold claimC4Criterion at this
    exact this.symm
  rw [hB, if_pos hcrit]

theorem regexExec_wf_self {p : String} (h : wellFormedPattern p = true) :
    regexExec (createRoutePattern p) p.data =
      some (paramCaps (splitSlash p.data) (splitSlash p.data)) := by
  rw [createRoutePattern_wf h]
  have hB := regexExec_toksOfSegs (splitSlash p.data) (splitSlash p.data)
    (splitSlash_ne_nil _) (splitSlash_ne_nil _)
    (fun s hs => splitSlash_noSlash s hs)
    (fun s hs => splitSlash_noSlash s hs)
  rw [joinSlash_splitSlash] at hB
  have hwf : ∀ s ∈ splitSlash p.data, wellFormedSeg s = true := by
    simp only [wellFormedPattern, Bool.and_eq_true] at h
    intro s hs
    exact (List.all_eq_true.mp h.2) s hs
  rw [hB, if_pos (segsCriterion_self hwf)]

theorem paramCaps_self_names {segs : List (List Char)} :
    (paramCaps segs segs).map (fun cs => removeFirstColon (String.mk cs)) =
      segs.filterMap
        (fun s => if isParamSeg s then some (String.mk s.tail) else none) := by
  induction segs with
  | nil => simp [paramCaps]
  | cons s rest ih =>
    rw [paramCaps_cons]
    by_cases hp : isParamSeg s
    · cases s with
      | nil => simp [isParamSeg] at hp
      | cons c cs =>
        have hc : c = ':' := by simpa [isParamSeg] using hp
        subst hc
        simp only [hp, if_true, List.map_cons, List.filterMap_cons, ih]
        simp [removeFirstColon, removeFirstColon.rfcAux]
    · simp [hp, List.filterMap_cons, ih]

theorem paramCaps_len :
    ∀ ps xs ys : List (List Char), ps.length = xs.length →
      ps.length = ys.length →
      (paramCaps ps xs).length = (paramCaps ps ys).length := by
  intro ps
  induction ps with
  | nil => intro xs ys _ _; simp [paramCaps]
  | cons s ps' ih =>
    intro xs ys hx hy
    cases xs with
    | nil => simp at hx
    | cons x xs' =>
      cases ys with
      | nil => simp at hy
      | cons y ys' =>
        rw [paramCaps_cons, paramCaps_cons]
        have := ih xs' ys' (by simpa using hx) (by simpa using hy)
        by_cases hp : isParamSeg s <;> simp [hp, this]

theorem drop_cons_get {α : Type} :
    ∀ (n : Nat) (l : List α) (v : α) (vs : List α), l.drop n = v :: vs →
      l.get? n = some v ∧ l.drop (n + 1) = vs := by
  intro n
  induction n with
  | zero =>
    intro l v vs h
    rw [List.drop_zero] at h
    subst h
    constructor
    · rfl
    · simp
  | succ n ih =>
    intro l v vs h
    cases l with
    | nil => simp at h
    | cons a as =>
      rw [List.drop_succ_cons] at h
      have := ih as v vs h
      constructor
      · simpa using this.1
      · simpa [List.drop_succ_cons] using this.2

theorem reduceParams_ok (values : List (List Char)) :
    ∀ (params ds : List String) (idx : Nat) (acc : List (String × String)),
      List.Forall₂ (fun cs d => decodeURIComponent (String.mk cs) = some d)
        (values.drop idx) ds →
      params.length = ds.length →
      getRouteParams.reduceParams values idx acc params =
        .ok ((List.zip params ds).foldl (fun a q => assocSet a q.1 q.2) acc) := by
  intro params
  induction params with
  | nil => intro ds idx acc _ _; simp [getRouteParams.reduceParams]
  | cons now rest ih =>
    intro ds idx acc hf hlen
    cases ds with
    | nil => simp at hlen
    | cons d ds2 =>
      cases hd : values.drop idx with
      | nil => rw [hd] at hf; cases hf
      | cons v vs =>
        rw [hd] at hf
        cases hf with
        | cons hdv htail =>
          obtain ⟨hget, hdrop⟩ := drop_cons_get idx values v vs hd
          simp only [getRouteParams.reduceParams, hget, Option.getD_some,
            hdv]
          rw [ih ds2 (idx + 1) _ (by rw [hdrop]; exact htail)
            (by simpa using hlen)]
          simp

theorem assocSet_append {acc : List (String × String)} {k : String}
    (v : String) (h : ∀ p ∈ acc, p.1 ≠ k) :
    assocSet acc k v = acc ++ [(k, v)] := by
  unfold assocSet
  have hany : acc.any (fun p => p.1 == k) = false := by
    rw [List.any_eq_false]
    intro p hp
    simpa using h p hp
  simp [hany]

theorem foldl_assocSet_nodup :
    ∀ (pairs : List (String × String)) (acc : List (String × String)),
      (pairs.map Prod.fst).Nodup →
      (∀ q ∈ pairs, ∀ p ∈ acc, p.1 ≠ q.1) →
      pairs.foldl (fun a q => assocSet a q.1 q.2) acc = acc ++ pairs := by
  intro pairs
  induction pairs with
  | nil => intro acc _ _; simp
  | cons q rest ih =>
    intro acc hnd hdisj
    simp only [List.foldl_cons]
    rw [assocSet_append q.2 (fun p hp => hdisj q (by simp) p hp)]
    simp only [List.map_cons, List.nodup_cons] at hnd
    rw [ih (acc ++ [q]) hnd.2 ?_]
    · simp
    · intro r hr p hp
      rcases List.mem_append.mp hp with hp | hp
      · exact hdisj r (by simp [hr]) p hp
      · have hpq : p = q := by simpa using hp
        subst hpq
        intro hcon
        exact hnd.1 (hcon ▸ List.mem_map_of_mem Prod.fst hr)

theorem getRouteParams_nomatch {route path : String}
    (h : routeRegexMatches route path = false) :
    getRouteParams route path = .ok [] := by
  unfold getRouteParams
  have hnone : regexExec (createRoutePattern route) path.data = none := by
    unfold routeRegexMatches regexTest at h
    cases hv : regexExec (createRoutePattern route) path.data with
    | none => rfl
    | some v => rw [hv] at h; simp at h
  simp [hnone]

theorem getRouteParams_wf {p x : String} (h : wellFormedPattern p = true)
    (hnd : (specParamNames p).Nodup) (hm : routeRegexMatches p x = true)
    {ds : List String}
    (hdec :
      List.Forall₂ (fun cs d => decodeURIComponent (String.mk cs) = some d)
        (paramCaps (splitSlash p.data) (splitSlash x.data)) ds) :
    getRouteParams p x = .ok (List.zip (specParamNames p) ds) := by
  have hpath := regexExec_wf_path h hm
  have hself := regexExec_wf_self h
  have hcrit : segsCriterion (splitSlash p.data) (splitSlash x.data) = true := by
    have := routeRegexMatches_wf x h
    rw [hm] at this
    unfold claimC4Criterion at this
    exact this.symm
  unfold getRouteParams
  dsimp only
  rw [hpath, hself]
  dsimp only
  have hnames :
      (paramCaps (splitSlash p.data) (splitSlash p.data)).map
        (fun cs => removeFirstColon (String.mk cs)) = specParamNames p := by
    rw [paramCaps_self_names]
    rfl
  rw [hnames]
  have hlenvals :
      (paramCaps (splitSlash p.data) (splitSlash x.data)).length =
        (paramCaps (splitSlash p.data) (splitSlash p.data)).length :=
    paramCaps_len _ _ _ (segsCriterion_len hcrit) rfl
  have hlennames : (specParamNames p).length =
      (paramCaps (splitSlash p.data) (splitSlash p.data)).length := by
    rw [← hnames]
    simp
  have hlends : (specParamNames p).length = ds.length := by
    rw [hlennames, ← hlenvals]
    exact hdec.length_eq
  rw [reduceParams_ok _ _ ds 0 [] (by rw [List.drop_zero]; exact hdec)
    hlends]
  rw [foldl_assocSet_nodup _ [] ?_ (by intro q _ p hp; cases hp)]
  · rw [List.nil_append]
  · have hmap : (List.zip (specParamNames p) ds).map Prod.fst =
        specParamNames p := by
      apply List.map_fst_zip
      exact le_of_eq hlends
    rw [hmap]
    exact hnd

/-!
Lemmas about the per-method grouping, the route search and the
middleware executors.
-/

theorem lookupGroup_addToGroups :
    ∀ (gs : List (String × List RouteEndpoint)) (e : RouteEndpoint)
      (m : String),
      lookupGroup (addToGroups gs e) m =
        lookupGroup gs m ++ (if e.method == m then [e] else []) := by
  intro gs e m
  induction gs with
  | nil =>
    simp only [addToGroups, lookupGroup]
    by_cases hm : e.method == m <;> simp [hm, lookupGroup]
  | cons p rest ih =>
    obtain ⟨k, g⟩ := p
    simp only [addToGroups]
    by_cases hk : k == e.method
    · simp only [hk, if_true, lookupGroup]
      by_cases hm : k == m
      · have hme : (e.method == m) = true := by
          have h1 : k = e.method := by simpa using hk
          have h2 : k = m := by simpa using hm
          simp [← h1, h2]
        simp [hm, hme]
      · have hme : (e.method == m) = false := by
          have h1 : k = e.method := by simpa using hk
          rw [← h1]
          simpa using hm
        simp [hm, hme]
    · simp only [hk, Bool.false_eq_true, if_false, lookupGroup]
      by_cases hm : k == m
      · have hme : (e.method == m) = false := by
          have h2 : k = m := by simpa using hm
          have h1 : ¬ k = e.method := by simpa using hk
          rw [← h2]
          simpa using fun hcon => h1 hcon.symm
        simp [hm, hme]
      · simp [hm, ih]

theorem lookupGroup_foldl :
    ∀ (endpoints : List RouteEndpoint)
      (gs : List (String × List RouteEndpoint)) (m : String),
      lookupGroup (endpoints.foldl addToGroups gs) m =
        lookupGroup gs m ++ endpoints.filter (fun e => e.method == m) := by
  intro endpoints
  induction endpoints with
  | nil => intro gs m; simp
  | cons e rest ih =>
    intro gs m
    simp only [List.foldl_cons, List.filter_cons]
    rw [ih, lookupGroup_addToGroups]
    by_cases hm : e.method == m <;> simp [hm]

/-- The method group of a router is exactly the registration-ordered list
of endpoints declaring that method. -/
theorem groupFor_eq_filter (endpoints : List RouteEndpoint) (m : String) :
    lookupGroup (buildGroups endpoints) m =
      endpoints.filter (fun e => e.method == m) := by
  have := lookupGroup_foldl endpoints [] m
  simpa [buildGroups, lookupGroup] using this

theorem keysContain_addToGroups :
    ∀ (gs : List (String × List RouteEndpoint)) (e : RouteEndpoint)
      (m : String),
      keysContain (addToGroups gs e) m =
        (keysContain gs m || e.method == m) := by
  intro gs e m
  induction gs with
  | nil =>
    simp only [addToGroups, keysContain, List.any_cons, List.any_nil]
    by_cases hm : e.method == m <;> simp [hm]
  | cons p rest ih =>
    obtain ⟨k, g⟩ := p
    simp only [addToGroups]
    by_cases hk : k == e.method
    · have h1 : k = e.method := by simpa using hk
      subst h1
      simp only [hk, if_true, keysContain, List.any_cons]
      cases e.method == m <;> cases rest.any (fun p => p.1 == m) <;> simp
    · simp only [hk, Bool.false_eq_true, if_false, keysContain, List.any_cons]
      simp [keysContain] at ih
      rw [ih]
      cases k == m <;> simp

theorem keysContain_buildGroups (endpoints : List RouteEndpoint)
    (m : String) :
    keysContain (buildGroups endpoints) m =
      endpoints.any (fun e => e.method == m) := by
  have haux : ∀ (es : List RouteEndpoint)
      (gs : List (String × List RouteEndpoint)),
      keysContain (es.foldl addToGroups gs) m =
        (keysContain gs m || es.any (fun e => e.method == m)) := by
    intro es
    induction es with
    | nil => intro gs; simp
    | cons e rest ih =>
      intro gs
      simp only [List.foldl_cons, List.any_cons]
      rw [ih, keysContain_addToGroups]
      cases keysContain gs m <;> cases e.method == m <;> simp
  have := haux endpoints []
  simpa [buildGroups, keysContain] using this

theorem find?_first {α : Type} (p : α → Bool) :
    ∀ (l1 : List α) (e : α) (l2 : List α), (∀ a ∈ l1, p a = false) →
      p e = true → (l1 ++ e :: l2).find? p = some e := by
  intro l1
  induction l1 with
  | nil =>
    intro e l2 _ hp
    simpa using List.find?_cons_of_pos l2 hp
  | cons a l1' ih =>
    intro e l2 h hp
    have ha : p a = false := h a (by simp)
    rw [List.cons_append, List.find?_cons_of_neg _ (by simp [ha])]
    exact ih e l2 (fun b hb => h b (by simp [hb])) hp

theorem runGmwList_pass_append {pre : List GMwEntry} :
    ∀ {req r1 : Request} {evs : List Event} (more : List GMwEntry),
      runGmwPass req pre = some (r1, evs) →
      runGmwList req (pre ++ more) =
        (evs ++ (runGmwList r1 more).1, (runGmwList r1 more).2) := by
  induction pre with
  | nil =>
    intro req r1 evs more h
    simp only [runGmwPass, Option.some.injEq, Prod.mk.injEq] at h
    obtain ⟨h1, h2⟩ := h
    subst h1
    subst h2
    simp
  | cons g0 pre' ih =>
    intro req r1 evs more h
    cases g0 with
    | notFn => simp [runGmwPass] at h
    | fn g =>
      simp only [runGmwPass] at h
      cases hrun : g.run req with
      | error e => rw [hrun] at h; simp at h
      | ok res =>
        cases res with
        | shortCircuit r => rw [hrun] at h; simp at h
        | nextReq r2 =>
          rw [hrun] at h
          dsimp only at h
          cases hrec : runGmwPass r2 pre' with
          | none => rw [hrec] at h; simp at h
          | some pr =>
            obtain ⟨pr1, pr2⟩ := pr
            rw [hrec] at h
            simp only [Option.map, Option.some.injEq, Prod.mk.injEq] at h
            obtain ⟨h1, h2⟩ := h
            rw [show (GMwEntry.fn g :: pre') ++ more =
              GMwEntry.fn g :: (pre' ++ more) from rfl]
            simp only [runGmwList, hrun]
            have hpr : runGmwPass r2 pre' = some (r1, pr2) := by
              rw [hrec, h1]
            rw [ih more hpr]
            rw [← h2]
            simp

theorem runGmwPass_events {pre : List GMwEntry} :
    ∀ {req r1 : Request} {evs : List Event},
      runGmwPass req pre = some (r1, evs) →
      ∀ ev ∈ evs, isGmwEvent ev = true := by
  induction pre with
  | nil =>
    intro req r1 evs h
    simp only [runGmwPass, Option.some.injEq, Prod.mk.injEq] at h
    rw [← h.2]
    intro ev hev
    cases hev
  | cons g0 pre' ih =>
    intro req r1 evs h
    cases g0 with
    | notFn => simp [runGmwPass] at h
    | fn g =>
      simp only [runGmwPass] at h
      cases hrun : g.run req with
      | error e => rw [hrun] at h; simp at h
      | ok res =>
        cases res with
        | shortCircuit r => rw [hrun] at h; simp at h
        | nextReq r2 =>
          rw [hrun] at h
          dsimp only at h
          cases hrec : runGmwPass r2 pre' with
          | none => rw [hrec] at h; simp at h
          | some pr =>
            obtain ⟨pr1, pr2⟩ := pr
            rw [hrec] at h
            simp only [Option.map, Option.some.injEq, Prod.mk.injEq] at h
            obtain ⟨h1, h2⟩ := h
            rw [← h2]
            intro ev hev
            simp only [List.mem_cons] at hev
            rcases hev with hev | hev
            · subst hev; rfl
            · exact ih (by rw [hrec, h1]) ev hev

/-!
Claim theorems.
-/

/-- C4 counterexample: the claimed segment criterion is not equivalent to
the compiled pattern.  For the pattern /a:b, whose second segment mixes a
literal prefix with a colon, the compiled regex is anchored a followed by
a capture group, so the path /aZ matches even though the claimed
criterion (the non-parameter segment a:b of the pattern must equal the
corresponding path segment verbatim) rejects it. -/
theorem C4_counterexample :
    routeRegexMatches "/a:b" "/aZ" = true ∧
      claimC4Criterion "/a:b" "/aZ" = false := by
  exact ⟨by decide, by decide⟩

/-- C4 (amended): for every well-formed route pattern, one in which every
segment is either colon-free or a pure parameter (a colon followed by a
nonempty colon-free name), the compiled pattern matches a path exactly
when the path has the same number of slash-delimited segments, every
literal segment of the pattern equals the corresponding path segment
verbatim and case-sensitively, and every parameter segment faces a
nonempty run of non-slash characters; anchoring is built in, so trailing
or differing text never matches.  Patterns with mixed literal-colon
segments, excluded here, behave as the counterexample shows. -/
theorem C4_pattern_matching (p x : String)
    (h : wellFormedPattern p = true) :
    routeRegexMatches p x = claimC4Criterion p x :=
  routeRegexMatches_wf x h

/-- C4 witness. -/
theorem C4_pattern_matching_witness :
    wellFormedPattern "/users/:id" = true ∧
      routeRegexMatches "/users/:id" "/users/123" =
        claimC4Criterion "/users/:id" "/users/123" ∧
      routeRegexMatches "/users/:id" "/users/123" = true ∧
      routeRegexMatches "/users/:id" "/users/123/x" = false :=
  ⟨by decide, C4_pattern_matching "/users/:id" "/users/123" (by decide),
    by decide, by decide⟩

/-- C5 counterexample: on a matching path whose captured value is
malformed percent input, getRouteParams does not return a map at all —
decodeURIComponent throws URIError inside the reduce, and the error
propagates.  The path /users/% matches the pattern /users/:userId (the
capture group takes any nonempty run of non-slash characters), yet
getRouteParams raises instead of binding userId; across the dispatcher
the error reaches the catch boundary and the response is the generic
500, the handler never having run. -/
theorem C5_counterexample :
    routeRegexMatches "/users/:userId" "/users/%" = true ∧
      decodeURIComponent "%" = none ∧
      getRouteParams "/users/:userId" "/users/%" =
        .error (.plain "URI malformed") ∧
      (∀ m : List (String × String),
        getRouteParams "/users/:userId" "/users/%" ≠ .ok m) ∧
      dispatch
          [plainEndpoint "GET" "/users/:userId" (constHandler 9 okResp)]
          emptyRouterConfig "GET" (plainGet "/users/%") =
        ([], responseJson "Internal Server Error" 500 "") := by
  refine ⟨by decide, by decide, rfl, ?_, rfl⟩
  intro m h
  rw [show getRouteParams "/users/:userId" "/users/%" =
    Except.error (Err.plain "URI malformed") from rfl] at h
  exact Except.noConfusion h

/-- C5 (amended): for a well-formed pattern with distinct parameter
names, a matching path whose captured values all percent-decode yields
the map binding each parameter name, in order of appearance, to the
positionally corresponding decoded capture; a non-matching path yields
the empty map with no error raised; and the two concrete examples of the
claim hold.  When some capture is malformed percent input the match
still succeeds but getRouteParams raises URIError instead of returning a
map (the counterexample). -/
theorem C5_route_params :
    (∀ (p x : String) (ds : List String), wellFormedPattern p = true →
        (specParamNames p).Nodup → routeRegexMatches p x = true →
        List.Forall₂
          (fun cs d => decodeURIComponent (String.mk cs) = some d)
          (paramCaps (splitSlash p.data) (splitSlash x.data)) ds →
        getRouteParams p x = .ok (List.zip (specParamNames p) ds)) ∧
      (∀ route path : String, routeRegexMatches route path = false →
        getRouteParams route path = .ok []) ∧
      getRouteParams "/users/:userId/books/:bookId" "/users/123/books/456" =
        .ok [("userId", "123"), ("bookId", "456")] ∧
      getRouteParams "/users/:userId" "/users/123/books" = .ok [] := by
  refine ⟨?_, ?_, rfl, rfl⟩
  · intro p x ds h hnd hm hdec
    exact getRouteParams_wf h hnd hm hdec
  · intro route path h
    exact getRouteParams_nomatch h

/-- C5 witness. -/
theorem C5_route_params_witness :
    wellFormedPattern "/users/:userId" = true ∧
      (specParamNames "/users/:userId").Nodup ∧
      routeRegexMatches "/users/:userId" "/users/42" = true ∧
      decodeURIComponent "42" = some "42" ∧
      getRouteParams "/users/:userId" "/users/42" =
        .ok (List.zip (specParamNames "/users/:userId") ["42"]) ∧
      routeRegexMatches "/users/:userId" "/nope/x" = false ∧
      getRouteParams "/users/:userId" "/nope/x" = .ok [] :=
  ⟨by decide, by decide, by decide, by decide,
    C5_route_params.1 "/users/:userId" "/users/42" ["42"] (by decide)
      (by decide) (by decide)
      (List.Forall₂.cons (by decide) List.Forall₂.nil),
    by decide,
    C5_route_params.2.1 "/users/:userId" "/nope/x" (by decide)⟩

/-- C1: with no error hook configured, a request whose method is not a
recognized HTTP method is rejected with 405 and the body naming the
method as not supported, and a request whose method is recognized but has
no endpoint group on this router is rejected with 405 and the body naming
the method as not allowed; in both cases the trace is empty, so no
middleware, route matching, context building or handler ran, and the
response does not depend on the registered routes or handlers.  The last
conjunct identifies the group-key test with the existence of a
registered endpoint for the method. -/
theorem C1_method_rejection (endpoints : List RouteEndpoint)
    (cfg : RouterConfig) (m : String) (req : Request)
    (hoe : cfg.onError = none) :
    (isSupportedMethod req.method = false →
      dispatch endpoints cfg m req =
        ([], responseJson
          ("The HTTP method \x27" ++ req.method ++ "\x27 is not supported")
          405 "METHOD_NOT_ALLOWED")) ∧
      (isSupportedMethod req.method = true →
        keysContain (buildGroups endpoints) req.method = false →
        dispatch endpoints cfg m req =
          ([], responseJson
            ("The HTTP method \x27" ++ req.method ++ "\x27 is not allowed")
            405 "METHOD_NOT_ALLOWED")) ∧
      keysContain (buildGroups endpoints) req.method =
        endpoints.any (fun e => e.method == req.method) := by
  refine ⟨?_, ?_, keysContain_buildGroups _ _⟩
  · intro h
    simp [dispatch, dispatchTry, methodGuard, h, translateError, hoe,
      renderCaughtError]
  · intro h1 h2
    simp [dispatch, dispatchTry, methodGuard, h1, h2, translateError, hoe,
      renderCaughtError]

/-- C1 witness. -/
theorem C1_method_rejection_witness :
    emptyRouterConfig.onError = none ∧
      isSupportedMethod "INVALID" = false ∧
      dispatch [epMe] emptyRouterConfig "GET" (plainReq "INVALID" "/users/me") =
        ([], responseJson "The HTTP method \x27INVALID\x27 is not supported"
          405 "METHOD_NOT_ALLOWED") ∧
      isSupportedMethod "PATCH" = true ∧
      keysContain (buildGroups [epMe]) "PATCH" = false ∧
      dispatch [epMe] emptyRouterConfig "GET" (plainReq "PATCH" "/users/me") =
        ([], responseJson "The HTTP method \x27PATCH\x27 is not allowed"
          405 "METHOD_NOT_ALLOWED") :=
  ⟨rfl, by decide,
    (C1_method_rejection [epMe] emptyRouterConfig "GET"
      (plainReq "INVALID" "/users/me") rfl).1 (by decide),
    by decide, by decide,
    (C1_method_rejection [epMe] emptyRouterConfig "GET"
      (plainReq "PATCH" "/users/me") rfl).2.1 (by decide) (by decide)⟩

/-- C3: the route search scans exactly the endpoints registered for the
dispatched method, in registration order, base-path-prefixed; the first
endpoint whose compiled pattern matches wins, so with an earlier and a
later endpoint both matching the earlier one is selected; and when no
endpoint of the group matches the path of the request produced by the
global middlewares, the dispatcher responds 404 with body message Not
Found. -/
theorem C3_route_search (endpoints : List RouteEndpoint)
    (cfg : RouterConfig) (m : String) (req r : Request) (evs : List Event) :
    (∀ path, findEndpoint endpoints cfg m path =
        (endpoints.filter (fun e => e.method == m)).find?
          (fun e => routeRegexMatches (withBasePath cfg e.route) path)) ∧
      (∀ path pre e post,
        endpoints.filter (fun e2 => e2.method == m) = pre ++ e :: post →
        (∀ e2 ∈ pre,
          routeRegexMatches (withBasePath cfg e2.route) path = false) →
        routeRegexMatches (withBasePath cfg e.route) path = true →
        findEndpoint endpoints cfg m path = some e) ∧
      (methodGuard endpoints req = none →
        executeGlobalMiddlewares req cfg.middlewares =
          (evs, .ok (.nextReq r)) →
        findEndpoint endpoints cfg m r.path = none →
        dispatch endpoints cfg m req =
          (evs, responseJson "Not Found" 404 "")) := by
  refine ⟨?_, ?_, ?_⟩
  · intro path
    unfold findEndpoint
    rw [groupFor_eq_filter]
  · intro path pre e post hfil hpre he
    unfold findEndpoint
    rw [groupFor_eq_filter, hfil]
    exact find?_first _ pre e post hpre he
  · intro hg hgm hf
    simp [dispatch, dispatchTry, hg, hgm, hf]

/-- C3 witness: two GET endpoints whose patterns both match /users/me;
the earlier-registered static endpoint is selected, and an unmatched path
gives the 404 response. -/
theorem C3_route_search_witness :
    ([epMe, epId].filter (fun e2 => e2.method == "GET") =
        [] ++ epMe :: [epId]) ∧
      routeRegexMatches (withBasePath emptyRouterConfig epMe.route)
        "/users/me" = true ∧
      routeRegexMatches (withBasePath emptyRouterConfig epId.route)
        "/users/me" = true ∧
      findEndpoint [epMe, epId] emptyRouterConfig "GET" "/users/me" =
        some epMe ∧
      methodGuard [epMe, epId] (plainGet "/nomatch") = none ∧
      executeGlobalMiddlewares (plainGet "/nomatch")
        emptyRouterConfig.middlewares =
        ([], .ok (.nextReq (plainGet "/nomatch"))) ∧
      findEndpoint [epMe, epId] emptyRouterConfig "GET"
        (plainGet "/nomatch").path = none ∧
      dispatch [epMe, epId] emptyRouterConfig "GET" (plainGet "/nomatch") =
        ([], responseJson "Not Found" 404 "") :=
  ⟨rfl, by decide, by decide,
    (C3_route_search [epMe, epId] emptyRouterConfig "GET"
        (plainGet "/nomatch") (plainGet "/nomatch") []).2.1
      "/users/me" [] epMe [epId] rfl (by intro e2 h; cases h) (by decide),
    rfl, rfl, rfl,
    (C3_route_search [epMe, epId] emptyRouterConfig "GET"
        (plainGet "/nomatch") (plainGet "/nomatch") []).2.2 rfl rfl rfl⟩

/-- C6: when a global middleware returns a complete response, that
response is returned to the caller at once: given that the preceding
global middlewares passed the request on (with trace evs) and middleware
g short-circuits with resp, the dispatch result is resp with trace
evs followed by the record of g itself, and every event of that trace is
a global-middleware event — so no later global middleware, no route
matching, no context building, no endpoint middleware and no handler
produced an event. -/
theorem C6_global_short_circuit (endpoints : List RouteEndpoint)
    (cfg : RouterConfig) (m : String) (req r1 : Request)
    (pre rest : List GMwEntry) (g : GMw) (resp : Response)
    (evs : List Event)
    (hg : methodGuard endpoints req = none)
    (hmw : cfg.middlewares = some (pre ++ .fn g :: rest))
    (hpre : runGmwPass req pre = some (r1, evs))
    (hrun : g.run r1 = .ok (.shortCircuit resp)) :
    dispatch endpoints cfg m req = (evs ++ [.gmwRan g.id], resp) ∧
      ∀ ev ∈ evs ++ [.gmwRan g.id], isGmwEvent ev = true := by
  have he : executeGlobalMiddlewares req cfg.middlewares =
      (evs ++ [.gmwRan g.id], .ok (.shortCircuit resp)) := by
    rw [hmw]
    show runGmwList req (pre ++ .fn g :: rest) = _
    rw [runGmwList_pass_append (.fn g :: rest) hpre]
    simp [runGmwList, hrun]
  refine ⟨?_, ?_⟩
  · simp [dispatch, dispatchTry, hg, he]
  · intro ev hev
    simp only [List.mem_append, List.mem_singleton] at hev
    rcases hev with hev | hev
    · exact runGmwPass_events hpre ev hev
    · subst hev; rfl

/-- C6 witness: a single short-circuiting global middleware in front of a
registered endpoint produces its response and a trace holding only the
middleware event, so the endpoint handler never ran. -/
theorem C6_global_short_circuit_witness :
    methodGuard [epMe] (plainGet "/users/me") = none ∧
      dispatch [epMe] ⟨none, some [.fn (blockMw 7 okResp)], none⟩ "GET"
          (plainGet "/users/me") = ([.gmwRan 7], okResp) :=
  ⟨rfl,
    (C6_global_short_circuit [epMe]
      ⟨none, some [.fn (blockMw 7 okResp)], none⟩ "GET"
      (plainGet "/users/me") (plainGet "/users/me") [] []
      (blockMw 7 okResp) okResp [] rfl rfl rfl rfl).1⟩

/-- C7: the error translation scheme.  With a configured onError hook the
hook is consulted first: its successful response is returned, its failure
yields the fixed fallback 500 with no retry.  Without a hook a router
error is rendered with its own declared status, status text and message,
and any other error as the fixed 500 body Internal Server Error.  Every
error escaping the dispatch attempt is translated by exactly this scheme,
and the fallback is the fixed 500 response. -/
theorem C7_error_translation (cfg : RouterConfig) (e : Err) (req : Request)
    (endpoints : List RouteEndpoint) (m : String) (evs : List Event)
    (status : Nat) (statusText message : String) :
    (∀ hook, cfg.onError = some hook →
      (∀ r, hook e req = .ok r → translateError cfg e req = r) ∧
        (∀ e2, hook e req = .error e2 →
          translateError cfg e req = fallbackResponse)) ∧
      (cfg.onError = none →
        translateError cfg (.routerError status statusText message) req =
            responseJson message status statusText ∧
          translateError cfg (.plain message) req =
            responseJson "Internal Server Error" 500 "") ∧
      (dispatchTry endpoints cfg m req = (evs, .error e) →
        dispatch endpoints cfg m req = (evs, translateError cfg e req)) ∧
      fallbackResponse = responseJson "Internal Server Error" 500 "" := by
  refine ⟨?_, ?_, ?_, rfl⟩
  · intro hook hh
    refine ⟨?_, ?_⟩
    · intro r hr
      simp [translateError, hh, hr]
    · intro e2 hr
      simp [translateError, hh, hr]
  · intro hh
    exact ⟨by simp [translateError, hh, renderCaughtError],
      by simp [translateError, hh, renderCaughtError]⟩
  · intro h
    simp [dispatch, h]

/-- C7 witness: the four translation outcomes at concrete inputs — a
successful hook, a failing hook, a hookless router error, a hookless
plain error — and a dispatched request whose handler raises a router
error, answered by the translation of that error. -/
theorem C7_error_translation_witness :
    translateError ⟨none, none, some okHook⟩ (.plain "boom")
        (plainGet "/") = responseJson "hooked" 418 "TEAPOT" ∧
      translateError ⟨none, none, some badHook⟩ (.plain "boom")
        (plainGet "/") = fallbackResponse ∧
      translateError emptyRouterConfig
          (.routerError 403 "FORBIDDEN" "no") (plainGet "/") =
        responseJson "no" 403 "FORBIDDEN" ∧
      translateError emptyRouterConfig (.plain "boom") (plainGet "/") =
        responseJson "Internal Server Error" 500 "" ∧
      dispatch
          [plainEndpoint "GET" "/x"
            (throwHandler 3 (.routerError 403 "FORBIDDEN" "no"))]
          emptyRouterConfig "GET" (plainGet "/x") =
        ([.handlerRan 3],
          translateError emptyRouterConfig
            (.routerError 403 "FORBIDDEN" "no") (plainGet "/x")) :=
  ⟨((C7_error_translation ⟨none, none, some okHook⟩ (.plain "boom")
      (plainGet "/") [] "GET" [] 0 "" "").1 okHook rfl).1
      (responseJson "hooked" 418 "TEAPOT") rfl,
    ((C7_error_translation ⟨none, none, some badHook⟩ (.plain "boom")
      (plainGet "/") [] "GET" [] 0 "" "").1 badHook rfl).2
      (.plain "hook failed") rfl,
    ((C7_error_translation emptyRouterConfig
      (.routerError 403 "FORBIDDEN" "no") (plainGet "/") [] "GET" [] 403
      "FORBIDDEN" "no").2.1 rfl).1,
    ((C7_error_translation emptyRouterConfig (.plain "boom")
      (plainGet "/") [] "GET" [] 500 "" "boom").2.1 rfl).2,
    (C7_error_translation emptyRouterConfig
      (.routerError 403 "FORBIDDEN" "no") (plainGet "/x")
      [plainEndpoint "GET" "/x"
        (throwHandler 3 (.routerError 403 "FORBIDDEN" "no"))]
      "GET" [.handlerRan 3] 0 "" "").2.2.1 rfl⟩

/-- C2: body-schema validation failure does NOT surface as a 422 with the
message Invalid request body.  getBody raises the failure as a plain
Error (not a router error carrying a status), so the catch boundary of
the dispatcher renders it as the generic 500 Internal Server Error: for
the credentials endpoint of the test suite and a JSON body missing the
password field, the dispatched response has status 500 and body message
Internal Server Error, not status 422 — the repository's own tests expect
422 UNPROCESSABLE_ENTITY here, so the code contradicts both the spec and
its tests.  The same shape holds for search parameters, whose failure is
also a plain Error. -/
theorem C2_validation_500 :
    getBody credBadRequest credEndpoint.config.schemas =
        .error (.plain "Invalid request body") ∧
      getSearchParams
          ⟨"GET", "/q", [("page", "x")], none, .jnull, "", [], []⟩
          ⟨none, some (fun _ => .error "Expected number")⟩ =
        .error (.plain "Invalid search parameters: Expected number") ∧
      dispatch [credEndpoint] emptyRouterConfig "POST" credBadRequest =
        ([], responseJson "Internal Server Error" 500 "") ∧
      (dispatch [credEndpoint] emptyRouterConfig "POST"
        credBadRequest).2.status = 500 ∧
      (dispatch [credEndpoint] emptyRouterConfig "POST"
        credBadRequest).2.status ≠ 422 :=
  ⟨rfl, rfl, rfl, rfl, by decide⟩

/-- C8 counterexample: a non-callable middleware is not detected when the
router is built.  createRouter with a middleware list holding a
non-callable entry returns its method handlers normally (one handler, for
GET), and only when a request is dispatched does the middleware executor
raise the TypeError Middleware must be a function — which the catch
boundary then renders as a 500 response.  The configuration error is thus
deferred to request time, contradicting the fail-fast claim. -/
theorem C8_counterexample :
    (createRouter [epMe] badMwCfg).length = 1 ∧
      (createRouter [epMe] badMwCfg).map Prod.fst = ["GET"] ∧
      runGmwList (plainGet "/users/me") [.notFn] =
        ([], .error (.plain "Middleware must be a function")) ∧
      dispatch [epMe] badMwCfg "GET" (plainGet "/users/me") =
        ([], responseJson "Internal Server Error" 500 "") :=
  ⟨rfl, rfl, rfl, rfl⟩

/-- C8 (amended): createEndpoint does fail fast on an unsupported method,
an invalid route and a non-callable handler, in that order, and otherwise
returns the endpoint tuple unchanged; but createRouter performs no
middleware validation at build time — it is exactly the grouping of the
endpoints into per-method dispatchers — and a non-callable middleware
raises Middleware must be a function only when the executor reaches it on
a dispatched request. -/
theorem C8_registration_validation (method route : String)
    (handler : HandlerSlot) (config : EndpointConfig)
    (pre rest : List GMwEntry) (req r1 : Request) (evs : List Event) :
    (isSupportedMethod method = true → isValidRoute route = true →
      isValidHandler handler = true →
      createEndpoint method route handler config =
        .ok (method, route, handler, config)) ∧
      (isSupportedMethod method = false →
        createEndpoint method route handler config =
          .error ("Unsupported HTTP method: " ++ method)) ∧
      (isSupportedMethod method = true → isValidRoute route = false →
        createEndpoint method route handler config =
          .error ("Invalid route format: " ++ route)) ∧
      (isSupportedMethod method = true → isValidRoute route = true →
        isValidHandler handler = false →
        createEndpoint method route handler config =
          .error "Handler must be a function") ∧
      (∀ endpoints cfg2,
        createRouter endpoints cfg2 =
          (buildGroups endpoints).map
            (fun p => (p.1, dispatch endpoints cfg2 p.1))) ∧
      (runGmwPass req pre = some (r1, evs) →
        runGmwList req (pre ++ .notFn :: rest) =
          (evs, .error (.plain "Middleware must be a function"))) := by
  refine ⟨?_, ?_, ?_, ?_, fun _ _ => rfl, ?_⟩
  · intro h1 h2 h3
    simp [createEndpoint, h1, h2, h3]
  · intro h1
    simp [createEndpoint, h1]
  · intro h1 h2
    simp [createEndpoint, h1, h2]
  · intro h1 h2 h3
    simp [createEndpoint, h1, h2, h3]
  · intro h
    rw [runGmwList_pass_append (.notFn :: rest) h]
    simp [runGmwList]

/-- C8 witness: the four createEndpoint outcomes at concrete inputs and
the request-time middleware failure behind a passing callable prefix. -/
theorem C8_registration_validation_witness :
    createEndpoint "GET" "/x" (.fnVal (constHandler 1 okResp))
        ⟨noSchemas, []⟩ =
      .ok ("GET", "/x", .fnVal (constHandler 1 okResp), ⟨noSchemas, []⟩) ∧
      createEndpoint "FOO" "/x" (.fnVal (constHandler 1 okResp))
          ⟨noSchemas, []⟩ = .error "Unsupported HTTP method: FOO" ∧
      createEndpoint "GET" "no-slash" (.fnVal (constHandler 1 okResp))
          ⟨noSchemas, []⟩ = .error "Invalid route format: no-slash" ∧
      createEndpoint "GET" "/x" .notFnVal ⟨noSchemas, []⟩ =
        .error "Handler must be a function" ∧
      runGmwList (plainGet "/x") [.fn (passMw 4), .notFn] =
        ([.gmwRan 4], .error (.plain "Middleware must be a function")) :=
  ⟨(C8_registration_validation "GET" "/x" (.fnVal (constHandler 1 okResp))
      ⟨noSchemas, []⟩ [] [] (plainGet "/x") (plainGet "/x") []).1
      (by decide) (by decide) rfl,
    (C8_registration_validation "FOO" "/x" (.fnVal (constHandler 1 okResp))
      ⟨noSchemas, []⟩ [] [] (plainGet "/x") (plainGet "/x") []).2.1
      (by decide),
    (C8_registration_validation "GET" "no-slash"
      (.fnVal (constHandler 1 okResp)) ⟨noSchemas, []⟩ [] []
      (plainGet "/x") (plainGet "/x") []).2.2.1 (by decide) (by decide),
    (C8_registration_validation "GET" "/x" .notFnVal ⟨noSchemas, []⟩ [] []
      (plainGet "/x") (plainGet "/x") []).2.2.2.1 (by decide) (by decide)
      rfl,
    (C8_registration_validation "GET" "/x" .notFnVal ⟨noSchemas, []⟩
      [.fn (passMw 4)] [] (plainGet "/x") (plainGet "/x")
      [.gmwRan 4]).2.2.2.2.2 rfl⟩

/-- C9 counterexample: the content-type dispatch is a chain of substring
(includes) tests with application/json first, not a classification by
category.  The declared type text/application/json is a text type (it
starts with text/), so the claim demands text decoding; but because it
also contains application/json as a substring, the source takes the JSON
branch and the body is the parsed JSON, not the text. -/
theorem C9_counterexample :
    containsSub "text/application/json" "text/" = true ∧
      containsSub "text/application/json" "application/json" = true ∧
      getBody textJsonRequest noSchemas =
        .ok (.jsonVal (.str "fromJson")) ∧
      getBody textJsonRequest noSchemas ≠ .ok (.textVal "fromText") := by
  refine ⟨by decide, by decide, rfl, ?_⟩
  intro h
  rw [show getBody textJsonRequest noSchemas =
    Except.ok (DecodedBody.jsonVal (.str "fromJson")) from rfl] at h
  simp at h

/-- C9 (amended): getBody returns undefined for every method outside
POST, PUT and PATCH; for body methods it tests the declared Content-Type
by substring containment in source order — application/json first (with
optional schema validation, a failure raising Invalid request body), then
the two form types, then text/, then application/octet-stream, then
image/, video/, audio/, else null.  Each branch applies only when every
earlier test failed, so the categories are prioritized substring tests
rather than the disjoint classification the claim words. -/
theorem C9_body_decoding (req : Request) (schemas : SchemasCfg)
    (ct : String) (sch : Schema) (v : JVal) (msg : String) :
    (isSupportedBodyMethod req.method = true ↔
        req.method ∈ ["POST", "PUT", "PATCH"]) ∧
      (isSupportedBodyMethod req.method = false →
        getBody req schemas = .ok .undef) ∧
      (isSupportedBodyMethod req.method = true →
        ct = req.contentTypeHdr.getD "" →
        (containsSub ct "application/json" = true →
          (schemas.bodySchema = none →
            getBody req schemas = .ok (.jsonVal req.jsonBody)) ∧
            (schemas.bodySchema = some sch → sch req.jsonBody = .ok v →
              getBody req schemas = .ok (.jsonVal v)) ∧
            (schemas.bodySchema = some sch → sch req.jsonBody = .error msg →
              getBody req schemas =
                .error (.plain "Invalid request body"))) ∧
          (containsSub ct "application/json" = false →
            (containsSub ct "application/x-www-form-urlencoded" ||
                containsSub ct "multipart/form-data") = true →
            getBody req schemas = .ok (.formVal req.formBody)) ∧
          (containsSub ct "application/json" = false →
            containsSub ct "application/x-www-form-urlencoded" = false →
            containsSub ct "multipart/form-data" = false →
            (containsSub ct "text/" = true →
              getBody req schemas = .ok (.textVal req.textBody)) ∧
              (containsSub ct "text/" = false →
                (containsSub ct "application/octet-stream" = true →
                  getBody req schemas = .ok .bufferVal) ∧
                  (containsSub ct "application/octet-stream" = false →
                    ((containsSub ct "image/" || containsSub ct "video/" ||
                        containsSub ct "audio/") = true →
                      getBody req schemas = .ok .blobVal) ∧
                      ((containsSub ct "image/" ||
                          containsSub ct "video/" ||
                          containsSub ct "audio/") = false →
                        getBody req schemas = .ok .nullVal))))) := by
  refine ⟨?_, ?_, ?_⟩
  · simp [isSupportedBodyMethod, supportedBodyMethods]
  · intro h
    simp [getBody, h]
  · intro hbm hct
    subst hct
    refine ⟨?_, ?_, ?_⟩
    · intro hjson
      refine ⟨?_, ?_, ?_⟩
      · intro hs
        simp [getBody, hbm, hjson, hs]
      · intro hs hv
        simp [getBody, hbm, hjson, hs, hv]
      · intro hs hv
        simp [getBody, hbm, hjson, hs, hv]
    · intro hjson hform
      simp only [Bool.or_eq_true] at hform
      rcases hform with hf | hf <;> simp [getBody, hbm, hjson, hf]
    · intro hjson hf1 hf2
      refine ⟨?_, ?_⟩
      · intro htext
        simp [getBody, hbm, hjson, hf1, hf2, htext]
      · intro htext
        refine ⟨?_, ?_⟩
        · intro hoct
          simp [getBody, hbm, hjson, hf1, hf2, htext, hoct]
        · intro hoct
          refine ⟨?_, ?_⟩
          · intro hmedia
            simp only [Bool.or_eq_true] at hmedia
            rcases hmedia with (hm | hm) | hm <;>
              simp [getBody, hbm, hjson, hf1, hf2, htext, hoct, hm]
          · intro hmedia
            simp only [Bool.or_eq_false_iff] at hmedia
            simp [getBody, hbm, hjson, hf1, hf2, htext, hoct,
              hmedia.1.1, hmedia.1.2, hmedia.2]

/-- C9 witness: one concrete request per branch — a GET with no body, a
JSON POST without schema, a JSON POST validated by the credentials
schema, a JSON POST rejected by it, a multipart form POST, a text/plain
POST, an octet-stream POST, an image POST, and an unmatched type. -/
theorem C9_body_decoding_witness :
    getBody (plainGet "/") noSchemas = .ok .undef ∧
      getBody ⟨"POST", "/p", [], some "application/json", .str "a", "",
          [], []⟩ noSchemas = .ok (.jsonVal (.str "a")) ∧
      getBody ⟨"POST", "/p", [], some "application/json",
          .obj [("username", .str "u"), ("password", .str "p")], "",
          [], []⟩ ⟨some credSchema, none⟩ =
        .ok (.jsonVal (.obj [("username", .str "u"),
          ("password", .str "p")])) ∧
      getBody credBadRequest ⟨some credSchema, none⟩ =
        .error (.plain "Invalid request body") ∧
      getBody ⟨"POST", "/p", [], some "multipart/form-data", .jnull, "",
          [("a", "1")], []⟩ noSchemas = .ok (.formVal [("a", "1")]) ∧
      getBody ⟨"PUT", "/p", [], some "text/plain", .jnull, "hi", [], []⟩
          noSchemas = .ok (.textVal "hi") ∧
      getBody ⟨"POST", "/p", [], some "application/octet-stream", .jnull,
          "", [], []⟩ noSchemas = .ok .bufferVal ∧
      getBody ⟨"PATCH", "/p", [], some "image/png", .jnull, "", [], []⟩
          noSchemas = .ok .blobVal ∧
      getBody ⟨"POST", "/p", [], some "application/xml", .jnull, "", [],
          []⟩ noSchemas = .ok .nullVal :=
  ⟨(C9_body_decoding (plainGet "/") noSchemas "" credSchema .jnull
      "").2.1 (by decide),
    ((C9_body_decoding ⟨"POST", "/p", [], some "application/json",
      .str "a", "", [], []⟩ noSchemas "application/json" credSchema
      .jnull "").2.2 (by decide) rfl).1 (by decide) |>.1 rfl,
    ((C9_body_decoding ⟨"POST", "/p", [], some "application/json",
      .obj [("username", .str "u"), ("password", .str "p")], "", [], []⟩
      ⟨some credSchema, none⟩ "application/json" credSchema
      (.obj [("username", .str "u"), ("password", .str "p")])
      "").2.2 (by decide) rfl).1 (by decide) |>.2.1 rfl rfl,
    ((C9_body_decoding credBadRequest ⟨some credSchema, none⟩
      "application/json" credSchema .jnull "Required").2.2 (by decide)
      rfl).1 (by decide) |>.2.2 rfl rfl,
    ((C9_body_decoding ⟨"POST", "/p", [], some "multipart/form-data",
      .jnull, "", [("a", "1")], []⟩ noSchemas "multipart/form-data"
      credSchema .jnull "").2.2 (by decide) rfl).2.1 (by decide)
      (by decide),
    (((C9_body_decoding ⟨"PUT", "/p", [], some "text/plain", .jnull,
      "hi", [], []⟩ noSchemas "text/plain" credSchema .jnull "").2.2
      (by decide) rfl).2.2 (by decide) (by decide) (by decide)).1
      (by decide),
    ((((C9_body_decoding ⟨"POST", "/p", [], some
      "application/octet-stream", .jnull, "", [], []⟩ noSchemas
      "application/octet-stream" credSchema .jnull "").2.2 (by decide)
      rfl).2.2 (by decide) (by decide) (by decide)).2 (by decide)).1
      (by decide),
    (((((C9_body_decoding ⟨"PATCH", "/p", [], some "image/png", .jnull,
      "", [], []⟩ noSchemas "image/png" credSchema .jnull "").2.2
      (by decide) rfl).2.2 (by decide) (by decide) (by decide)).2
      (by decide)).2 (by decide)).1 (by decide),
    (((((C9_body_decoding ⟨"POST", "/p", [], some "application/xml",
      .jnull, "", [], []⟩ noSchemas "application/xml" credSchema .jnull
      "").2.2 (by decide) rfl).2.2 (by decide) (by decide)
      (by decide)).2 (by decide)).2 (by decide)).2 (by decide)⟩

theorem runEmwRefs_received (mws : List EMwRef) :
    ∀ a h, (runEmwRefs a h mws).2.2 = threadAddrs a h mws := by
  induction mws with
  | nil => intro a h; rfl
  | cons mw rest ih =>
    intro a h
    simp [runEmwRefs, threadAddrs, ih]

/-- C10 counterexample: the claim that a middleware returning a new
context object has no effect, so that only in-place mutation is visible
to subsequent middlewares, is false for the middlewares themselves.  With
a first endpoint middleware that allocates and returns a fresh context
and a second that mutates whatever it receives, the second middleware
receives the fresh object (address 1), not the dispatcher-built one
(address 0): the chain threads returned contexts.  The handler still
receives address 0, whose cell is unchanged because the mutation landed
on the fresh cell. -/
theorem C10_counterexample :
    (dispatchTailRef ⟨[]⟩ [allocMwRef, mutateMwRef]).2.2.1 = [0, 1] ∧
      (1 : Nat) ≠ 0 ∧
      (dispatchTailRef ⟨[]⟩ [allocMwRef, mutateMwRef]).1 = 0 ∧
      (dispatchTailRef ⟨[]⟩ [allocMwRef, mutateMwRef]).2.1 =
        [⟨[]⟩, ⟨["mutated"]⟩] ∧
      (dispatchTailRef ⟨[]⟩ [allocMwRef, mutateMwRef]).2.2.2 = 1 :=
  ⟨rfl, by decide, rfl, rfl, rfl⟩

/-- C10 (amended): the handler's context is reference-identical to the
dispatcher-built one — the dispatcher passes the address of the context
it built (address 0) to the handler and discards the address the
middleware chain returned — but each endpoint middleware receives the
address returned by its predecessor, so a middleware that returns a new
context does redirect every later middleware to that new object; only
the handler is pinned to the dispatcher-built context. -/
theorem C10_context_identity (initial : CtxCell) (mws : List EMwRef) :
    (dispatchTailRef initial mws).1 = 0 ∧
      (dispatchTailRef initial mws).2.2.1 =
        threadAddrs 0 [initial] mws ∧
      (dispatchTailRef initial mws).2.2.2 =
        (runEmwRefs 0 [initial] mws).1 :=
  ⟨rfl, runEmwRefs_received mws 0 [initial], rfl⟩

end Router
